import Mathlib

/-!
A shallow embedding of the board/task state engine of the Task-Management
repository (Express routes over Mongoose documents, plus the client-side
zustand store), together with proofs about its operations.

Collections are lists of documents; Mongo ids are natural numbers; the
JavaScript array primitives used by the routes (`splice`, `findIndex`,
`push`, `filter`) are embedded as list functions with the exact JS
semantics (including negative `splice` start indices).
-/

namespace TaskMgmt

abbrev Id := Nat

/-- JS `Array.prototype.findIndex`, as an `Option Nat` (JS returns `-1` for
"not found", embedded as `none`). -/
def findIndex (p : α → Bool) : List α → Option Nat
  | [] => none
  | a :: l => if p a then some 0 else (findIndex p l).map (· + 1)

/-- Normalization of the `start` argument of JS `Array.prototype.splice`
for an array of length `len`: negative values count from the end
(`max (len + start) 0`), values past the end clamp to `len`. -/
def spliceStart (start : Int) (len : Nat) : Nat :=
  if start < 0 then ((len : Int) + start).toNat else min start.toNat len

/-- Insertion at a `Nat` position (positions past the end append). -/
def insertAtNat (l : List α) (n : Nat) (a : α) : List α :=
  l.take n ++ a :: l.drop n

/-- JS `arr.splice(start, 0, a)`: insert `a` at the normalized position. -/
def spliceInsert (l : List α) (start : Int) (a : α) : List α :=
  insertAtNat l (spliceStart start l.length) a

/-- JS `arr.splice(start, 1)`: delete one element at the normalized
position (deletes nothing when the position is past the end). -/
def spliceRemove (l : List α) (start : Int) : List α :=
  let n := spliceStart start l.length
  l.take n ++ l.drop (n + 1)

/-- The `findIndex` + `splice(i, 1)`-if-found pattern used by the backend
routes to remove a task id from a `taskIds` array (id-based removal of the
first occurrence). -/
def removeById (l : List Id) (tid : Id) : List Id :=
  match findIndex (· == tid) l with
  | none => l
  | some i => l.take i ++ l.drop (i + 1)

/-- In-place update of the element at index `i` (JS `arr[i] = f(arr[i])`);
out-of-range indices leave the list unchanged. -/
def modifyAt : List α → Nat → (α → α) → List α
  | [], _, _ => []
  | x :: xs, 0, f => f x :: xs
  | x :: xs, n + 1, f => x :: modifyAt xs n f

/-- Mongo `findByIdAndDelete` on a list of documents with id projection
`f`: delete the (first) document whose id matches. -/
def eraseById (l : List α) (f : α → Id) (i : Id) : List α :=
  match findIndex (fun x => f x == i) l with
  | none => l
  | some k => l.take k ++ l.drop (k + 1)

/-! ### Basic lemmas about the list primitives -/

theorem length_modifyAt (l : List α) (i : Nat) (f : α → α) :
    (modifyAt l i f).length = l.length := by
  induction l generalizing i with
  | nil => rfl
  | cons x xs ih =>
    cases i with
    | zero => rfl
    | succ n => simpa [modifyAt] using ih n

theorem get_modifyAt (l : List α) (i : Nat) (f : α → α) (j : Nat)
    (hj : j < (modifyAt l i f).length) (hj2 : j < l.length) :
    (modifyAt l i f).get ⟨j, hj⟩ =
      if j = i then f (l.get ⟨j, hj2⟩) else l.get ⟨j, hj2⟩ := by
  induction l generalizing i j with
  | nil => simp at hj2
  | cons x xs ih =>
    cases i with
    | zero =>
      cases j with
      | zero => simp [modifyAt]
      | succ m => simp [modifyAt]
    | succ n =>
      cases j with
      | zero => simp [modifyAt]
      | succ m =>
        have hm : m < (modifyAt xs n f).length := by
          simpa [modifyAt] using hj
        have hm2 : m < xs.length := by simpa using hj2
        have h3 := ih n m hm hm2
        simp [modifyAt, Nat.succ_inj]
        simpa using h3

theorem map_modifyAt (l : List α) (i : Nat) (f : α → α) (g : α → β)
    (h : ∀ x, g (f x) = g x) :
    (modifyAt l i f).map g = l.map g := by
  induction l generalizing i with
  | nil => rfl
  | cons x xs ih =>
    cases i with
    | zero => simp [modifyAt, h]
    | succ n => simp [modifyAt, ih n]

theorem modifyAt_eq_self (l : List α) (i : Nat) (f : α → α)
    (hi : i < l.length) (h : f (l.get ⟨i, hi⟩) = l.get ⟨i, hi⟩) :
    modifyAt l i f = l := by
  induction l generalizing i with
  | nil => rfl
  | cons x xs ih =>
    cases i with
    | zero => simpa [modifyAt] using h
    | succ n =>
      have hn : n < xs.length := by simpa using hi
      have := ih n hn (by simpa using h)
      simp [modifyAt, this]

theorem modifyAt_modifyAt (l : List α) (i : Nat) (f g : α → α) :
    modifyAt (modifyAt l i f) i g = modifyAt l i (fun x => g (f x)) := by
  induction l generalizing i with
  | nil => rfl
  | cons x xs ih =>
    cases i with
    | zero => simp [modifyAt]
    | succ n => simp [modifyAt, ih n]

theorem modifyAt_congr (l : List α) (i : Nat) (f g : α → α)
    (h : ∀ hi : i < l.length, f (l.get ⟨i, hi⟩) = g (l.get ⟨i, hi⟩)) :
    modifyAt l i f = modifyAt l i g := by
  induction l generalizing i with
  | nil => rfl
  | cons x xs ih =>
    cases i with
    | zero =>
      have := h (by simp)
      simp only [List.get] at this
      simp [modifyAt, this]
    | succ n =>
      have := ih n (fun hn => h (by simpa using Nat.succ_lt_succ hn))
      simp [modifyAt, this]

theorem findIndex_some_lt {p : α → Bool} {l : List α} {i : Nat}
    (h : findIndex p l = some i) : i < l.length := by
  induction l generalizing i with
  | nil => simp [findIndex] at h
  | cons x xs ih =>
    by_cases hx : p x
    · simp [findIndex, hx] at h
      subst h
      show 0 < xs.length + 1
      omega
    · simp [findIndex, hx] at h
      obtain ⟨j, hj, rfl⟩ := h
      have := ih hj
      simpa using Nat.succ_lt_succ this

theorem findIndex_some_get {p : α → Bool} {l : List α} {i : Nat}
    (h : findIndex p l = some i) (hi : i < l.length) :
    p (l.get ⟨i, hi⟩) = true := by
  induction l generalizing i with
  | nil => simp [findIndex] at h
  | cons x xs ih =>
    by_cases hx : p x
    · simp [findIndex, hx] at h
      subst h
      simpa using hx
    · simp [findIndex, hx] at h
      obtain ⟨j, hj, rfl⟩ := h
      exact ih hj (by simpa using hi)

theorem findIndex_eq_none_iff {p : α → Bool} {l : List α} :
    findIndex p l = none ↔ ∀ x ∈ l, p x = false := by
  induction l with
  | nil => simp [findIndex]
  | cons x xs ih =>
    rw [findIndex]
    by_cases hx : p x
    · simp [hx]
    · have hx2 : p x = false := by simpa using hx
      simp [hx2, ih]

theorem findIndex_append_left {p : α → Bool} {l₁ l₂ : List α} {i : Nat}
    (h : findIndex p l₁ = some i) :
    findIndex p (l₁ ++ l₂) = some i := by
  induction l₁ generalizing i with
  | nil => simp [findIndex] at h
  | cons x xs ih =>
    by_cases hx : p x
    · simp [findIndex, hx] at h ⊢
      exact h
    · simp [findIndex, hx] at h ⊢
      obtain ⟨j, hj, rfl⟩ := h
      exact ⟨j, ih hj, rfl⟩

theorem findIndex_append_right {p : α → Bool} {l₁ l₂ : List α}
    (h : findIndex p l₁ = none) :
    findIndex p (l₁ ++ l₂) = (findIndex p l₂).map (· + l₁.length) := by
  induction l₁ with
  | nil => simp
  | cons x xs ih =>
    by_cases hx : p x
    · simp [findIndex, hx] at h
    · simp [findIndex, hx] at h ⊢
      rw [ih h]
      cases findIndex p l₂ with
      | none => rfl
      | some j => simp; omega

theorem count_insertAtNat (l : List Id) (n : Nat) (a x : Id) :
    (insertAtNat l n a).count x = l.count x + if x = a then 1 else 0 := by
  unfold insertAtNat
  conv_rhs => rw [← List.take_append_drop n l]
  rw [List.count_append, List.count_append, List.count_cons]
  by_cases hxa : x = a
  · simp [hxa]
    omega
  · simp [hxa]
    exact fun h2 => hxa h2.symm

theorem mem_insertAtNat {l : List Id} {n : Nat} {a x : Id} :
    x ∈ insertAtNat l n a ↔ x = a ∨ x ∈ l := by
  unfold insertAtNat
  constructor
  · intro hx
    rcases List.mem_append.1 hx with h | h
    · exact Or.inr (List.mem_of_mem_take h)
    · rcases List.mem_cons.1 h with h | h
      · exact Or.inl h
      · exact Or.inr (List.mem_of_mem_drop h)
  · intro hx
    rcases hx with rfl | hx
    · exact List.mem_append.2 (Or.inr (List.mem_cons_self _ _))
    · have h2 : x ∈ l.take n ++ l.drop n := by
        rw [List.take_append_drop]
        exact hx
      rcases List.mem_append.1 h2 with h | h
      · exact List.mem_append.2 (Or.inl h)
      · exact List.mem_append.2 (Or.inr (List.mem_cons_of_mem _ h))

theorem removeById_eq_erase (l : List Id) (tid : Id) :
    removeById l tid = l.erase tid := by
  induction l with
  | nil => rfl
  | cons x xs ih =>
    by_cases hx : x = tid
    · simp [removeById, findIndex, hx, List.erase_cons]
    · have hx2 : (x == tid) = false := by simpa using hx
      rw [removeById, findIndex]
      simp only [hx2, if_false]
      rw [List.erase_cons]
      simp only [beq_iff_eq]
      rw [if_neg hx]
      rw [removeById] at ih
      cases hfi : findIndex (· == tid) xs with
      | none => simpa [hfi] using ih
      | some i => simpa [hfi] using ih

theorem count_removeById (l : List Id) (tid x : Id) (hx : x ≠ tid) :
    (removeById l tid).count x = l.count x := by
  rw [removeById_eq_erase]
  exact List.count_erase_of_ne hx _

theorem count_removeById_self (l : List Id) (tid : Id) :
    (removeById l tid).count tid = l.count tid - 1 := by
  rw [removeById_eq_erase]
  exact List.count_erase_self _ _

theorem removeById_of_not_mem (l : List Id) (tid : Id) (h : tid ∉ l) :
    removeById l tid = l := by
  rw [removeById_eq_erase]
  exact List.erase_of_not_mem h

theorem removeById_insertAtNat_self (l : List Id) (j : Nat) (tid : Id)
    (hmem : tid ∉ l) (hj : j ≤ l.length) :
    removeById (insertAtNat l j tid) tid = l := by
  have htake : findIndex (· == tid) (l.take j) = none := by
    rw [findIndex_eq_none_iff]
    intro x hx
    have hxl : x ∈ l := List.mem_of_mem_take hx
    simp only [beq_eq_false_iff_ne, ne_eq]
    intro h
    exact hmem (h ▸ hxl)
  have hlen : (l.take j).length = j := by simpa using hj
  have hfind : findIndex (· == tid) (insertAtNat l j tid) = some j := by
    unfold insertAtNat
    rw [findIndex_append_right htake]
    simp [findIndex, hlen]
  have h1 : (insertAtNat l j tid).take j = l.take j := by
    unfold insertAtNat
    rw [List.take_append_eq_append_take]
    simp [hlen]
  have h2 : (insertAtNat l j tid).drop (j + 1) = l.drop j := by
    unfold insertAtNat
    rw [List.drop_append_eq_append_drop]
    simp [hlen]
  rw [removeById, hfind]
  show (insertAtNat l j tid).take j ++ (insertAtNat l j tid).drop (j + 1) = l
  rw [h1, h2, List.take_append_drop]

theorem spliceStart_le (start : Int) (len : Nat) : spliceStart start len ≤ len := by
  unfold spliceStart
  by_cases h : start < 0
  · simp only [h, if_true]
    omega
  · simp only [h, if_false]
    omega

theorem spliceStart_nonneg (start : Int) (len : Nat) (h : 0 ≤ start) :
    spliceStart start len = min start.toNat len := by
  unfold spliceStart
  rw [if_neg (by omega)]

/-! ### Data model (Mongoose schemas, embedded as plain records) -/

/-- `columnSchema` of `board.model.js`. -/
structure Column where
  _id : Id
  title : String
  order : Int
  taskIds : List Id
deriving DecidableEq

/-- `boardSchema` of `board.model.js`. -/
structure Board where
  _id : Id
  title : String
  description : String
  project : Id
  columns : List Column
  columnOrder : List Id
deriving DecidableEq

/-- `taskSchema` of `task.model.js` (the fields the routes read or write). -/
structure Task where
  _id : Id
  title : String
  board : Id
  column : Id
  order : Int
deriving DecidableEq

inductive Role
  | owner
  | admin
  | member
deriving DecidableEq

structure Member where
  user : Id
  role : Role
deriving DecidableEq

structure Project where
  _id : Id
  name : String
  description : String
  owner : Id
  members : List Member
deriving DecidableEq

structure Activity where
  user : Id
  projectId : Id
deriving DecidableEq

structure Notification where
  recipient : Id
  projectId : Id
deriving DecidableEq

/-- The document store: one list per collection. -/
structure Store where
  projects : List Project
  boards : List Board
  tasks : List Task
  activities : List Activity
  notifications : List Notification
deriving DecidableEq

instance : Inhabited Column := ⟨⟨0, "", 0, []⟩⟩

inductive Err
  | notFound
  | forbidden
  | validationError
deriving DecidableEq

def Store.findTask (s : Store) (id : Id) : Option Task :=
  s.tasks.find? (·._id == id)

def Store.findBoard (s : Store) (id : Id) : Option Board :=
  s.boards.find? (·._id == id)

def Store.findProject (s : Store) (id : Id) : Option Project :=
  s.projects.find? (·._id == id)

/-- The ids of a board's columns, in array order. -/
def colIds (b : Board) : List Id :=
  b.columns.map (·._id)

/-- `board.columns.findIndex(column => column._id.toString() === cid)`. -/
def Board.findColumnIdx (b : Board) (cid : Id) : Option Nat :=
  findIndex (fun c => c._id == cid) b.columns

/-- `project.members.some(member => member.user.toString() === req.user.id)`. -/
def isMemberOf (p : Project) (userId : Id) : Bool :=
  p.members.any (fun m => m.user == userId)

/-! ### Access-control middleware (`canAccessTask`, `canAccessBoard`) -/

/-- `canAccessTask` middleware of `task.routes.js`: resolve
task → board → project, 404 on any missing link, then 403 unless the
requester is a project member. -/
def canAccessTask (s : Store) (userId taskId : Id) :
    Except Err (Task × Board × Project) :=
  match s.findTask taskId with
  | none => .error .notFound
  | some task =>
    match s.findBoard task.board with
    | none => .error .notFound
    | some board =>
      match s.findProject board.project with
      | none => .error .notFound
      | some project =>
        if isMemberOf project userId then .ok (task, board, project)
        else .error .forbidden

/-- `canAccessBoard` middleware of `board.routes.js`. -/
def canAccessBoard (s : Store) (userId boardId : Id) :
    Except Err (Board × Project) :=
  match s.findBoard boardId with
  | none => .error .notFound
  | some board =>
    match s.findProject board.project with
    | none => .error .notFound
    | some project =>
      if isMemberOf project userId then .ok (board, project)
      else .error .forbidden

/-- An access-guarded task route: the handler only runs when
`canAccessTask` grants access (the Express middleware chain). -/
def runTaskRoute (s : Store) (userId taskId : Id)
    (handler : Task → Board → Project → Except Err Store) : Except Err Store :=
  match canAccessTask s userId taskId with
  | .error e => .error e
  | .ok (task, board, project) => handler task board project

/-- An access-guarded board route. -/
def runBoardRoute (s : Store) (userId boardId : Id)
    (handler : Board → Project → Except Err Store) : Except Err Store :=
  match canAccessBoard s userId boardId with
  | .error e => .error e
  | .ok (board, project) => handler board project

/-- Applying a route outcome to the store: an error response leaves the
persisted documents exactly as they were. -/
def applyRoute (s : Store) (r : Except Err Store) : Store :=
  match r with
  | .error _ => s
  | .ok s2 => s2

/-! ### Board/task state engine: the route handlers -/

/-- The source-column removal step shared verbatim by
`DELETE /api/tasks/:id` and `PUT /api/tasks/:id/move`: find the column
whose id is the task's denormalized `column` field and, if found, remove
the first occurrence of the task's id from its `taskIds`. -/
def removeTaskFromBoard (board : Board) (task : Task) : Board :=
  match board.findColumnIdx task.column with
  | none => board
  | some columnIndex =>
    { board with
        columns := modifyAt board.columns columnIndex
          (fun c => { c with taskIds := removeById c.taskIds task._id }) }

/-- `PUT /api/tasks/:id/move` (after middleware): 404 if the target column
is not on the board; otherwise remove the task id from its current column
(id-based), `splice` it into the target column at `order`, and set the
task's denormalized `column`/`order` fields. -/
def moveTaskHandler (task : Task) (board : Board) (columnId : Id)
    (order : Int) : Except Err (Board × Task) :=
  match board.findColumnIdx columnId with
  | none => .error .notFound
  | some targetColumnIndex =>
    let board1 := removeTaskFromBoard board task
    let board2 :=
      { board1 with
          columns := modifyAt board1.columns targetColumnIndex
            (fun c => { c with taskIds := spliceInsert c.taskIds order task._id }) }
    .ok (board2, { task with column := columnId, order := order })

/-- `POST /api/tasks` (after access checks): validate the title, 404 if
the column is not on the board, create the task with
`order = taskIds.length`, and push its id onto the column's `taskIds`. -/
def createTaskHandler (board : Board) (columnId : Id) (title : String)
    (newId : Id) : Except Err (Board × Task) :=
  if title = "" then .error .validationError
  else
    match board.findColumnIdx columnId with
    | none => .error .notFound
    | some columnIndex =>
      let task : Task :=
        { _id := newId, title := title, board := board._id, column := columnId,
          order := ((board.columns.getD columnIndex default).taskIds.length : Int) }
      let board2 :=
        { board with
            columns := modifyAt board.columns columnIndex
              (fun c => { c with taskIds := c.taskIds ++ [newId] }) }
      .ok (board2, task)

/-- `DELETE /api/tasks/:id` (after middleware): remove the task id from
its column, then delete the task document. The board part is exactly
`removeTaskFromBoard`. -/
def deleteTaskHandler (board : Board) (task : Task) : Board :=
  removeTaskFromBoard board task

/-- The client-side `moveTask` optimistic update of `boardStore.js`: find
source and destination columns; if both exist, `splice(sourceIndex, 1)`
out of the source column (position-based) and
`splice(destinationIndex, 0, taskId)` into the destination column. -/
def moveTaskClient (board : Board) (taskId sourceColumnId destColumnId : Id)
    (sourceIndex destinationIndex : Int) : Board :=
  match board.findColumnIdx sourceColumnId, board.findColumnIdx destColumnId with
  | some sourceColumnIndex, some destinationColumnIndex =>
    let b1 :=
      { board with
          columns := modifyAt board.columns sourceColumnIndex
            (fun c => { c with taskIds := spliceRemove c.taskIds sourceIndex }) }
    { b1 with
        columns := modifyAt b1.columns destinationColumnIndex
          (fun c => { c with taskIds := spliceInsert c.taskIds destinationIndex taskId }) }
  | _, _ => board

/-! ### Column routes (`board.routes.js`) -/

/-- `POST /api/boards/:id/columns`: validate the title and append a fresh
column to `columns` and its id to `columnOrder`. -/
def createColumn (board : Board) (title : String) (newId : Id) :
    Except Err Board :=
  if title = "" then .error .validationError
  else
    let newColumn : Column :=
      { _id := newId, title := title, order := (board.columns.length : Int),
        taskIds := [] }
    .ok { board with
            columns := board.columns ++ [newColumn],
            columnOrder := board.columnOrder ++ [newId] }

/-- The `columnOrder.forEach((columnId, index) => ...)` loop of the
reorder route: for each listed id, set that column's denormalized `order`
to its index in the list. -/
def applyOrderUpdates (cols : List Column) : List (Nat × Id) → List Column
  | [] => cols
  | (index, columnId) :: rest =>
    match findIndex (fun c => c._id == columnId) cols with
    | none => applyOrderUpdates cols rest
    | some columnIndex =>
      applyOrderUpdates
        (modifyAt cols columnIndex (fun c => { c with order := (index : Int) }))
        rest

/-- `PUT /api/boards/:id/columns/reorder`: reject (400) when some id in
the request is not a current column id; otherwise replace `columnOrder`
and refresh each listed column's `order` field. -/
def reorderColumns (board : Board) (columnOrder : List Id) :
    Except Err Board :=
  let validColumnIds := colIds board
  let allIdsValid := columnOrder.all (fun id => validColumnIds.contains id)
  if !allIdsValid then .error .validationError
  else
    .ok { board with
            columnOrder := columnOrder,
            columns := applyOrderUpdates board.columns columnOrder.enum }

/-- `DELETE /api/boards/:id/columns/:columnId`: 404 if the column is not
on the board; otherwise delete every task whose id is in the column's
`taskIds`, then splice the column out of `columns` and its id out of
`columnOrder`. -/
def deleteColumnHandler (board : Board) (tasks : List Task) (columnId : Id) :
    Except Err (Board × List Task) :=
  match board.findColumnIdx columnId with
  | none => .error .notFound
  | some columnIndex =>
    let tids := (board.columns.getD columnIndex default).taskIds
    let tasks2 := tasks.filter (fun t => !(tids.contains t._id))
    let cols2 := board.columns.eraseIdx columnIndex
    let order2 := removeById board.columnOrder columnId
    .ok ({ board with columns := cols2, columnOrder := order2 }, tasks2)

/-! ### Board and project routes -/

/-- The `boardSchema.pre('save')` hook of `board.model.js`: a new board
saved with no columns gets the three default columns
To Do / In Progress / Done (fresh ids) and a matching `columnOrder`. -/
def boardPreSave (b : Board) (isNew : Bool) (fresh : Id) : Board :=
  if isNew && b.columns.length == 0 then
    let todoColumn : Column :=
      { _id := fresh, title := "To Do", order := 0, taskIds := [] }
    let inProgressColumn : Column :=
      { _id := fresh + 1, title := "In Progress", order := 1, taskIds := [] }
    let doneColumn : Column :=
      { _id := fresh + 2, title := "Done", order := 2, taskIds := [] }
    { b with
        columns := [todoColumn, inProgressColumn, doneColumn],
        columnOrder := [todoColumn._id, inProgressColumn._id, doneColumn._id] }
  else b

/-- `POST /api/projects`: validate the name, save the project, then save a
default board for it (title 'Main Board', no columns — the pre-save hook
fills in the defaults). Responds with `{ project, board }`. -/
def createProjectRoute (s : Store) (userId : Id) (name description : String)
    (fresh : Id) : Except Err (Store × Project × Board) :=
  if name = "" then .error .validationError
  else
    let project : Project :=
      { _id := fresh, name := name, description := description, owner := userId,
        members := [{ user := userId, role := .owner }] }
    let board0 : Board :=
      { _id := fresh + 1, title := "Main Board",
        description := "Default board for the project", project := project._id,
        columns := [], columnOrder := [] }
    let board := boardPreSave board0 true (fresh + 2)
    .ok ({ s with
             projects := s.projects ++ [project],
             boards := s.boards ++ [board] },
         project, board)

/-- `DELETE /api/projects/:id`: the `isAdminOrOwner` middleware (404 if
the project is missing, 403 unless the requester is an admin or owner
member), then a 403 unless the requester is the project's owner, then
delete the project, its boards, and the activities and notifications that
reference it. Tasks are not touched. -/
def deleteProjectRoute (s : Store) (userId projectId : Id) :
    Except Err Store :=
  match s.findProject projectId with
  | none => .error .notFound
  | some project =>
    match project.members.find? (fun m => m.user == userId) with
    | none => .error .forbidden
    | some m =>
      if m.role ≠ Role.admin ∧ m.role ≠ Role.owner then .error .forbidden
      else if project.owner ≠ userId then .error .forbidden
      else
        .ok { s with
                projects := eraseById s.projects (·._id) projectId,
                boards := s.boards.filter (fun b => !(b.project == projectId)),
                activities := s.activities.filter (fun a => !(a.projectId == projectId)),
                notifications := s.notifications.filter (fun n => !(n.projectId == projectId)) }

/-- `DELETE /api/boards/:id`: `canAccessBoard`, a 403 unless the requester
is an admin or owner member, then delete the board and every task whose
`board` field references it. -/
def deleteBoardRoute (s : Store) (userId boardId : Id) : Except Err Store :=
  match canAccessBoard s userId boardId with
  | .error e => .error e
  | .ok (_, project) =>
    match project.members.find? (fun m => m.user == userId) with
    | none => .error .forbidden
    | some m =>
      if m.role ≠ Role.admin ∧ m.role ≠ Role.owner then .error .forbidden
      else
        .ok { s with
                boards := eraseById s.boards (·._id) boardId,
                tasks := s.tasks.filter (fun t => !(t.board == boardId)) }

/-- `GET /api/tasks/:id` reduced to the document lookup: `findById`
returning `null` surfaces as a 404. -/
def taskQuery (tasks : List Task) (tid : Id) : Except Err Task :=
  match tasks.find? (·._id == tid) with
  | none => .error .notFound
  | some t => .ok t

/-! ### Sequences of task operations (for the denormalization invariant) -/

/-- The mutable state a sequence of task operations touches: one board,
the task collection, and a fresh-id source standing in for ObjectId
generation. -/
structure TState where
  board : Board
  tasks : List Task
  nextId : Id
deriving DecidableEq

inductive TOp
  | create (columnId : Id) (title : String)
  | move (taskId : Id) (columnId : Id) (order : Int)
  | del (taskId : Id)

/-- One task operation, applied when its validation passes and a no-op
otherwise (a failed request mutates nothing). `move` and `del` update the
task document the way `task.save()` / `findByIdAndDelete` do. -/
def stepT (s : TState) (op : TOp) : TState :=
  match op with
  | .create columnId title =>
    match createTaskHandler s.board columnId title s.nextId with
    | .error _ => s
    | .ok (b2, t) =>
      { board := b2, tasks := s.tasks ++ [t], nextId := s.nextId + 1 }
  | .move taskId columnId order =>
    match s.tasks.find? (·._id == taskId) with
    | none => s
    | some task =>
      match moveTaskHandler task s.board columnId order with
      | .error _ => s
      | .ok (b2, t2) =>
        { s with
            board := b2,
            tasks := s.tasks.map (fun t => if t._id == taskId then t2 else t) }
  | .del taskId =>
    match s.tasks.find? (·._id == taskId) with
    | none => s
    | some task =>
      { s with
          board := deleteTaskHandler s.board task,
          tasks := eraseById s.tasks (·._id) taskId }

/-- Well-formedness of a task state: distinct column ids, distinct task
ids, all ids below the fresh-id source, and each task contained exactly
once, in the column its denormalized `column` field names. -/
abbrev WFT (s : TState) : Prop :=
  (colIds s.board).Nodup ∧
  (s.tasks.map (·._id)).Nodup ∧
  (∀ t ∈ s.tasks, t._id < s.nextId) ∧
  (∀ c ∈ s.board.columns, ∀ i ∈ c.taskIds, i < s.nextId) ∧
  (∀ t ∈ s.tasks, ∀ c ∈ s.board.columns,
    c.taskIds.count t._id = if c._id = t.column then 1 else 0)

/-! ### Sequences of column operations (for the columnOrder invariant) -/

inductive COp
  | createCol (title : String)
  | delCol (columnId : Id)
  | reorder (newOrder : List Id)

/-- One column operation on a board (plus the task collection, which
`deleteColumn` cascades into), no-op on validation failure. -/
def stepC (s : TState) (op : COp) : TState :=
  match op with
  | .createCol title =>
    match createColumn s.board title s.nextId with
    | .error _ => s
    | .ok b2 => { s with board := b2, nextId := s.nextId + 1 }
  | .delCol columnId =>
    match deleteColumnHandler s.board s.tasks columnId with
    | .error _ => s
    | .ok (b2, ts2) => { s with board := b2, tasks := ts2 }
  | .reorder newOrder =>
    match reorderColumns s.board newOrder with
    | .error _ => s
    | .ok b2 => { s with board := b2 }

/-! ### Supporting lemmas about the embedded operations -/

theorem findIndex_map (f : α → β) (p : β → Bool) (l : List α) :
    findIndex p (l.map f) = findIndex (fun x => p (f x)) l := by
  induction l with
  | nil => rfl
  | cons x xs ih => rw [List.map_cons, findIndex, findIndex, ih]

theorem map_eraseIdx (l : List α) (f : α → β) (i : Nat) :
    (l.eraseIdx i).map f = (l.map f).eraseIdx i := by
  induction l generalizing i with
  | nil => rfl
  | cons x xs ih =>
    cases i with
    | zero => simp [List.eraseIdx]
    | succ n => simp [List.eraseIdx, ih n]

theorem eraseIdx_of_findIndex_beq (l : List Id) (a : Id) (k : Nat)
    (h : findIndex (· == a) l = some k) : l.eraseIdx k = l.erase a := by
  induction l generalizing k with
  | nil => simp [findIndex] at h
  | cons x xs ih =>
    by_cases hx : x = a
    · simp [findIndex, hx] at h
      subst h
      simp [List.eraseIdx, List.erase_cons, hx]
    · have hx2 : (x == a) = false := by simpa using hx
      simp [findIndex, hx2] at h
      obtain ⟨j, hj, rfl⟩ := h
      simp [List.eraseIdx, List.erase_cons, hx, ih j hj]

theorem map_eraseById (l : List α) (f : α → Id) (i : Id) :
    (eraseById l f i).map f = removeById (l.map f) i := by
  unfold eraseById removeById
  rw [findIndex_map f (· == i) l]
  cases h : findIndex (fun x => f x == i) l with
  | none => rfl
  | some k => simp [List.map_take, List.map_drop]

theorem mem_of_mem_eraseById {l : List α} {f : α → Id} {i : Id} {x : α}
    (h : x ∈ eraseById l f i) : x ∈ l := by
  unfold eraseById at h
  cases hf : findIndex (fun y => f y == i) l with
  | none => rw [hf] at h; exact h
  | some k =>
    rw [hf] at h
    rcases List.mem_append.1 h with h2 | h2
    · exact List.mem_of_mem_take h2
    · exact List.mem_of_mem_drop h2

theorem sublist_eraseById (l : List α) (f : α → Id) (i : Id) :
    (eraseById l f i).Sublist l := by
  unfold eraseById
  cases hf : findIndex (fun y => f y == i) l with
  | none => exact List.Sublist.refl l
  | some k =>
    have h1 : (l.drop (k + 1)).Sublist (l.drop k) := by
      have := List.drop_sublist 1 (l.drop k)
      simpa [List.drop_drop, Nat.add_comm] using this
    have h2 : (l.take k ++ l.drop (k + 1)).Sublist (l.take k ++ l.drop k) :=
      List.Sublist.append_left h1 _
    rw [List.take_append_drop] at h2
    exact h2

theorem nodup_map_get_inj {l : List α} {f : α → β}
    (h : (l.map f).Nodup) {i j : Nat} (hi : i < l.length) (hj : j < l.length)
    (he : f (l.get ⟨i, hi⟩) = f (l.get ⟨j, hj⟩)) : i = j := by
  have hinj := List.nodup_iff_injective_get.1 h
  have hi2 : i < (l.map f).length := by simpa using hi
  have hj2 : j < (l.map f).length := by simpa using hj
  have h1 : (l.map f).get ⟨i, hi2⟩ = (l.map f).get ⟨j, hj2⟩ := by
    simp only [List.get_eq_getElem, List.getElem_map]
    simp only [List.get_eq_getElem] at he
    exact he
  have := hinj h1
  simpa using congrArg Fin.val this

theorem findColumnIdx_eq_findIndex_colIds (b : Board) (cid : Id) :
    b.findColumnIdx cid = findIndex (· == cid) (colIds b) := by
  unfold Board.findColumnIdx colIds
  rw [findIndex_map]

theorem findColumnIdx_congr {b b2 : Board} (h : colIds b = colIds b2)
    (cid : Id) : b.findColumnIdx cid = b2.findColumnIdx cid := by
  rw [findColumnIdx_eq_findIndex_colIds, findColumnIdx_eq_findIndex_colIds, h]

theorem findColumnIdx_eq_none_iff (b : Board) (cid : Id) :
    b.findColumnIdx cid = none ↔ cid ∉ colIds b := by
  unfold Board.findColumnIdx
  rw [findIndex_eq_none_iff]
  constructor
  · intro h hmem
    obtain ⟨c, hc, hcid⟩ := List.mem_map.1 hmem
    have := h c hc
    simp [hcid] at this
  · intro h c hc
    simp only [beq_eq_false_iff_ne, ne_eq]
    intro he
    exact h (List.mem_map.2 ⟨c, hc, he⟩)

theorem findColumnIdx_some_lt {b : Board} {cid : Id} {i : Nat}
    (h : b.findColumnIdx cid = some i) : i < b.columns.length :=
  findIndex_some_lt h

theorem findColumnIdx_some_id {b : Board} {cid : Id} {i : Nat}
    (h : b.findColumnIdx cid = some i) (hi : i < b.columns.length) :
    (b.columns.get ⟨i, hi⟩)._id = cid := by
  have := findIndex_some_get h hi
  simpa using this

theorem colIds_modify_taskIds (b : Board) (i : Nat) (g : List Id → List Id) :
    colIds { b with columns := modifyAt b.columns i (fun c => { c with taskIds := g c.taskIds }) } = colIds b := by
  unfold colIds
  exact map_modifyAt _ _ _ _ (fun x => rfl)

theorem colIds_removeTaskFromBoard (b : Board) (t : Task) :
    colIds (removeTaskFromBoard b t) = colIds b := by
  unfold removeTaskFromBoard
  cases h : b.findColumnIdx t.column with
  | none => rfl
  | some i => exact colIds_modify_taskIds b i (fun l => removeById l t._id)

theorem length_columns_removeTaskFromBoard (b : Board) (t : Task) :
    (removeTaskFromBoard b t).columns.length = b.columns.length := by
  unfold removeTaskFromBoard
  cases h : b.findColumnIdx t.column with
  | none => rfl
  | some i => simp [length_modifyAt]

theorem map_id_applyOrderUpdates (cols : List Column) (pairs : List (Nat × Id)) :
    (applyOrderUpdates cols pairs).map (·._id) = cols.map (·._id) := by
  induction pairs generalizing cols with
  | nil => rfl
  | cons p rest ih =>
    obtain ⟨index, columnId⟩ := p
    rw [applyOrderUpdates]
    cases h : findIndex (fun c => c._id == columnId) cols with
    | none => exact ih cols
    | some ci =>
      rw [ih]
      exact map_modifyAt _ _ _ _ (fun x => rfl)

theorem get_modifyAt_ne (l : List α) (i : Nat) (f : α → α) (j : Nat)
    (hj : j < (modifyAt l i f).length) (hj2 : j < l.length) (hne : j ≠ i) :
    (modifyAt l i f).get ⟨j, hj⟩ = l.get ⟨j, hj2⟩ := by
  rw [get_modifyAt _ _ _ _ _ hj2, if_neg hne]

theorem get_modifyAt_self (l : List α) (i : Nat) (f : α → α)
    (hj : i < (modifyAt l i f).length) (hj2 : i < l.length) :
    (modifyAt l i f).get ⟨i, hj⟩ = f (l.get ⟨i, hj2⟩) := by
  rw [get_modifyAt _ _ _ _ _ hj2, if_pos rfl]

theorem taskIds_double_modify (cols : List Column) (si di : Nat)
    (g h : List Id → List Id) (hne : si ≠ di) (hsi : si < cols.length)
    (hlt : si < (modifyAt (modifyAt cols si (fun c => { c with taskIds := g c.taskIds })) di (fun c => { c with taskIds := h c.taskIds })).length) :
    ((modifyAt (modifyAt cols si (fun c => { c with taskIds := g c.taskIds })) di (fun c => { c with taskIds := h c.taskIds })).get ⟨si, hlt⟩).taskIds =
      g ((cols.get ⟨si, hsi⟩).taskIds) := by
  have h1 : si < (modifyAt cols si (fun c => { c with taskIds := g c.taskIds })).length := by
    rw [length_modifyAt]
    exact hsi
  rw [get_modifyAt_ne _ _ _ _ _ h1 hne, get_modifyAt_self _ _ _ _ hsi]

theorem all_contains_iff (l ids : List Id) :
    (l.all (fun id => ids.contains id) = true) ↔ ∀ id ∈ l, id ∈ ids := by
  rw [List.all_eq_true]
  constructor
  · intro h id hid
    exact List.elem_iff.1 (h id hid)
  · intro h id hid
    exact List.elem_iff.2 (h id hid)

/-! ### Example documents used in concrete evaluations -/

def exBoardC2 : Board :=
  { _id := 10, title := "b", description := "", project := 1,
    columns := [⟨0, "To Do", 0, []⟩, ⟨1, "In Progress", 1, []⟩, ⟨2, "Done", 2, []⟩],
    columnOrder := [0, 1, 2] }

def exBoardC5 : Board :=
  { _id := 20, title := "b", description := "", project := 1,
    columns := [⟨0, "c0", 0, [11, 12]⟩], columnOrder := [0] }

def exTaskC5 : Task := ⟨5, "t", 20, 99, 0⟩

def exBoardC1 : Board :=
  { _id := 30, title := "b", description := "", project := 1,
    columns := [⟨0, "src", 0, [5, 77, 9]⟩, ⟨1, "dst", 1, []⟩],
    columnOrder := [0, 1] }

def exTaskC1 : Task := ⟨77, "t", 30, 0, 1⟩

/-! ### C2: reorderColumns validation -/

/-- C2 counterexample: `[2, 0]` omits existing column id `1`, yet the
reorder route accepts it and replaces `columnOrder`, instead of failing
with a validation error as the claim states. -/
theorem reorder_missing_id_not_rejected :
    reorderColumns exBoardC2 [2, 0] =
      Except.ok { exBoardC2 with
        columnOrder := [2, 0],
        columns := [⟨0, "To Do", 1, []⟩, ⟨1, "In Progress", 1, []⟩, ⟨2, "Done", 0, []⟩] } ∧
    (1 : Id) ∈ colIds exBoardC2 ∧ (1 : Id) ∉ ([2, 0] : List Id) :=
  ⟨by rfl, by decide, by decide⟩

/-- C2 (amended): `reorderColumns` fails with a validation error exactly
when some id in `newOrder` is not a current column id (the board is then
left unchanged); when every id in `newOrder` is a current column id — even
if `newOrder` omits existing ids or repeats ids — the call succeeds and
replaces `columnOrder` with `newOrder`, keeping the columns' ids. -/
theorem reorderColumns_validation (b : Board) (newOrder : List Id) :
    (reorderColumns b newOrder = Except.error Err.validationError ↔
      ¬ (∀ id ∈ newOrder, id ∈ colIds b)) ∧
    ((∀ id ∈ newOrder, id ∈ colIds b) →
      ∃ b2, reorderColumns b newOrder = Except.ok b2 ∧
        b2.columnOrder = newOrder ∧ colIds b2 = colIds b) := by
  have hiff := all_contains_iff newOrder (colIds b)
  by_cases hv : newOrder.all (fun id => (colIds b).contains id) = true
  · have hok : reorderColumns b newOrder = Except.ok { b with
        columnOrder := newOrder,
        columns := applyOrderUpdates b.columns newOrder.enum } := by
      simp [reorderColumns, hv]
      exact hiff.1 hv
    rw [hok]
    constructor
    · simp only [hiff] at hv
      constructor
      · intro h
        exact Except.noConfusion h
      · intro h
        exact absurd hv h
    · intro _
      exact ⟨_, rfl, rfl, map_id_applyOrderUpdates b.columns newOrder.enum⟩
  · have hv2 : newOrder.all (fun id => (colIds b).contains id) = false :=
      Bool.eq_false_iff.2 hv
    have herr : reorderColumns b newOrder = Except.error Err.validationError := by
      simp [reorderColumns, hv2]
      have h3 := mt hiff.2 hv
      push_neg at h3
      exact h3
    rw [herr]
    constructor
    · simp only [hiff] at hv
      constructor
      · intro _
        exact hv
      · intro _
        rfl
    · intro h
      exact absurd (hiff.2 h) hv

/-- C2 witness: a full permutation is accepted and replaces
`columnOrder`. -/
theorem reorderColumns_validation_witness :
    ∃ b2, reorderColumns exBoardC2 [2, 1, 0] = Except.ok b2 ∧
      b2.columnOrder = [2, 1, 0] ∧ colIds b2 = colIds exBoardC2 :=
  (reorderColumns_validation exBoardC2 [2, 1, 0]).2 (by decide)

/-! ### C5: destination insertion in moveTask -/

/-- C5 counterexample: with destination index `-1` the task id is spliced
in before the last element (JS negative-start semantics), not at position
`0` as "clamped to [0, length]" would give. -/
theorem moveTask_negative_dest_not_clamped :
    moveTaskHandler exTaskC5 exBoardC5 0 (-1) =
      Except.ok ({ exBoardC5 with columns := [⟨0, "c0", 0, [11, 5, 12]⟩] },
        { exTaskC5 with column := 0, order := -1 }) ∧
    ([11, 5, 12] : List Id) ≠ [5, 11, 12] :=
  ⟨by rfl, by decide⟩

/-- C5 (amended): for every moveTask call whose destination column exists
and whose destination index is non-negative, the task id is inserted into
the destination column's `taskIds` at `destIndex` clamped to
`[0, length]` (`min destIndex length`), and the task's denormalized
`column` and `order` fields are set to the destination column id and to
`destIndex`; a negative `destIndex` instead counts from the end of the
list. -/
theorem moveTask_destination_insert (task : Task) (board : Board)
    (columnId : Id) (order : Int) (targetColumnIndex : Nat)
    (h0 : 0 ≤ order)
    (ht : board.findColumnIdx columnId = some targetColumnIndex) :
    ∃ b2,
      moveTaskHandler task board columnId order =
        Except.ok (b2, { task with column := columnId, order := order }) ∧
      b2.columns =
        modifyAt (removeTaskFromBoard board task).columns targetColumnIndex
          (fun c => { c with
            taskIds := insertAtNat c.taskIds (min order.toNat c.taskIds.length) task._id }) := by
  rw [moveTaskHandler, ht]
  refine ⟨_, rfl, ?_⟩
  show modifyAt _ _ _ = modifyAt _ _ _
  apply congrArg
  funext c
  rw [spliceInsert, spliceStart_nonneg _ _ h0]

/-- C5 witness: inserting at index 2 into a two-element list appends at
the clamped position `min 2 2`. -/
theorem moveTask_destination_insert_witness :
    ∃ b2,
      moveTaskHandler exTaskC5 exBoardC5 0 2 =
        Except.ok (b2, { exTaskC5 with column := 0, order := 2 }) ∧
      b2.columns =
        modifyAt (removeTaskFromBoard exBoardC5 exTaskC5).columns 0
          (fun c => { c with
            taskIds := insertAtNat c.taskIds (min (Int.toNat 2) c.taskIds.length) exTaskC5._id }) :=
  moveTask_destination_insert exTaskC5 exBoardC5 0 2 0 (by decide) (by rfl)

/-! ### C1: removal discipline of the two moveTask implementations -/

/-- C1 counterexample: the server-side move route removes the moved
task's id (here `77`, at position 1) from the source column by searching
for it — not the element at a caller-supplied source index (the route
takes no source index at all); position-based removal at index 0 would
have removed `5` instead. -/
theorem moveTask_server_removal_not_position_based :
    moveTaskHandler exTaskC1 exBoardC1 1 0 =
      Except.ok ({ exBoardC1 with
        columns := [⟨0, "src", 0, [5, 9]⟩, ⟨1, "dst", 1, [77]⟩] },
        { exTaskC1 with column := 1, order := 0 }) ∧
    spliceRemove ([5, 77, 9] : List Id) 0 = [77, 9] ∧
    ([5, 9] : List Id) ≠ [77, 9] :=
  ⟨by rfl, by rfl, by decide⟩

/-- C1 (amended): only the client-side store's optimistic `moveTask`
removes position-based — it splices out whatever element sits at the
caller-supplied `sourceIndex` of the source column, regardless of whether
that element is the moved task's id; the server-side move route takes no
source index and removes the first occurrence of the moved task's id
(id-based removal). -/
theorem moveTask_removal_discipline :
    (∀ (board : Board) (taskId srcId dstId : Id)
       (sourceIndex destinationIndex : Int) (si di : Nat),
       board.findColumnIdx srcId = some si →
       board.findColumnIdx dstId = some di → si ≠ di →
       ∀ hsi : si < (moveTaskClient board taskId srcId dstId sourceIndex destinationIndex).columns.length,
       ∀ hsi2 : si < board.columns.length,
       ((moveTaskClient board taskId srcId dstId sourceIndex destinationIndex).columns.get ⟨si, hsi⟩).taskIds =
         spliceRemove ((board.columns.get ⟨si, hsi2⟩).taskIds) sourceIndex) ∧
    (∀ (board : Board) (task : Task) (columnId : Id) (order : Int)
       (si ti : Nat) (b2 : Board) (t2 : Task),
       board.findColumnIdx task.column = some si →
       board.findColumnIdx columnId = some ti → si ≠ ti →
       moveTaskHandler task board columnId order = Except.ok (b2, t2) →
       ∀ hsi : si < b2.columns.length, ∀ hsi2 : si < board.columns.length,
       (b2.columns.get ⟨si, hsi⟩).taskIds =
         removeById ((board.columns.get ⟨si, hsi2⟩).taskIds) task._id) := by
  constructor
  · intro board taskId srcId dstId sourceIndex destinationIndex si di hs hd hne hsi hsi2
    have hcols : (moveTaskClient board taskId srcId dstId sourceIndex destinationIndex).columns =
        modifyAt (modifyAt board.columns si
          (fun c => { c with taskIds := spliceRemove c.taskIds sourceIndex })) di
          (fun c => { c with taskIds := spliceInsert c.taskIds destinationIndex taskId }) := by
      unfold moveTaskClient
      rw [hs, hd]
    have hget := List.get_of_eq hcols ⟨si, hsi⟩
    rw [hget]
    exact taskIds_double_modify board.columns si di
      (fun l => spliceRemove l sourceIndex)
      (fun l => spliceInsert l destinationIndex taskId) hne hsi2 _
  · intro board task columnId order si ti b2 t2 hs ht hne hmv hsi hsi2
    rw [moveTaskHandler, ht] at hmv
    have hpair := Except.ok.inj hmv
    have hfst : ({ removeTaskFromBoard board task with
        columns := modifyAt (removeTaskFromBoard board task).columns ti
          (fun c => { c with taskIds := spliceInsert c.taskIds order task._id }) } : Board) = b2 :=
      congrArg Prod.fst hpair
    have hcols : b2.columns =
        modifyAt (modifyAt board.columns si
          (fun c => { c with taskIds := removeById c.taskIds task._id })) ti
          (fun c => { c with taskIds := spliceInsert c.taskIds order task._id }) := by
      rw [← hfst]
      show modifyAt (removeTaskFromBoard board task).columns ti
        (fun c => { c with taskIds := spliceInsert c.taskIds order task._id }) = _
      rw [removeTaskFromBoard, hs]
    have hget := List.get_of_eq hcols ⟨si, hsi⟩
    rw [hget]
    exact taskIds_double_modify board.columns si ti
      (fun l => removeById l task._id)
      (fun l => spliceInsert l order task._id) hne hsi2 _

/-- C1 witness: the client store removes the element at source index 0 of
the source column. -/
theorem moveTask_removal_discipline_witness :
    ((moveTaskClient exBoardC1 77 0 1 0 0).columns.get ⟨0, by decide⟩).taskIds =
      spliceRemove ((exBoardC1.columns.get ⟨0, by decide⟩).taskIds) 0 :=
  moveTask_removal_discipline.1 exBoardC1 77 0 1 0 0 0 1 (by rfl) (by rfl)
    (by decide) (by decide) (by decide)

/-! ### C7: deleteColumn cascade -/

/-- C7: `deleteColumn` fails with NotFound (and changes nothing) exactly
when `columnId` is not one of the board's column ids; on success the
column is gone from both `columns` and `columnOrder`, and querying any
task id that was in the column's `taskIds` yields NotFound. -/
theorem deleteColumn_spec (board : Board) (tasks : List Task) (columnId : Id)
    (hnd : (colIds board).Nodup)
    (hord : board.columnOrder.count columnId ≤ 1) :
    (deleteColumnHandler board tasks columnId = Except.error Err.notFound ↔
      columnId ∉ colIds board) ∧
    (∀ b2 ts2, deleteColumnHandler board tasks columnId = Except.ok (b2, ts2) →
      columnId ∉ colIds b2 ∧
      columnId ∉ b2.columnOrder ∧
      (∀ ci, board.findColumnIdx columnId = some ci →
        ∀ tid ∈ (board.columns.getD ci default).taskIds,
          taskQuery ts2 tid = Except.error Err.notFound)) := by
  constructor
  · cases hf : board.findColumnIdx columnId with
    | none =>
      have h1 : deleteColumnHandler board tasks columnId = Except.error Err.notFound := by
        rw [deleteColumnHandler, hf]
      rw [h1]
      exact iff_of_true rfl ((findColumnIdx_eq_none_iff board columnId).1 hf)
    | some ci =>
      have hmem : columnId ∈ colIds board := by
        by_contra hcon
        rw [← findColumnIdx_eq_none_iff] at hcon
        rw [hcon] at hf
        exact Option.noConfusion hf
      have h1 : deleteColumnHandler board tasks columnId =
          Except.ok ({ board with
              columns := board.columns.eraseIdx ci,
              columnOrder := removeById board.columnOrder columnId },
            tasks.filter (fun t => !(((board.columns.getD ci default).taskIds).contains t._id))) := by
        rw [deleteColumnHandler, hf]
      rw [h1]
      exact iff_of_false (fun h => Except.noConfusion h) (fun h => h hmem)
  · intro b2 ts2 hok
    cases hf : board.findColumnIdx columnId with
    | none =>
      rw [deleteColumnHandler, hf] at hok
      exact Except.noConfusion hok
    | some ci =>
      rw [deleteColumnHandler, hf] at hok
      have hpair := Except.ok.inj hok
      have hb2 : ({ board with
          columns := board.columns.eraseIdx ci,
          columnOrder := removeById board.columnOrder columnId } : Board) = b2 :=
        congrArg Prod.fst hpair
      have hts2 : tasks.filter
          (fun t => !(((board.columns.getD ci default).taskIds).contains t._id)) = ts2 :=
        congrArg Prod.snd hpair
      refine ⟨?_, ?_, ?_⟩
      · rw [← hb2]
        have hcols : colIds ({ board with
            columns := board.columns.eraseIdx ci,
            columnOrder := removeById board.columnOrder columnId } : Board) =
            (colIds board).erase columnId := by
          show (board.columns.eraseIdx ci).map (·._id) = _
          rw [map_eraseIdx]
          apply eraseIdx_of_findIndex_beq
          show findIndex (fun x => x == columnId) (colIds board) = some ci
          rw [← findColumnIdx_eq_findIndex_colIds]
          exact hf
        rw [hcols]
        intro hcon
        exact ((List.Nodup.mem_erase_iff hnd).1 hcon).1 rfl
      · rw [← hb2]
        show columnId ∉ removeById board.columnOrder columnId
        rw [removeById_eq_erase]
        intro hcon
        have hc := List.count_erase_self columnId board.columnOrder
        have hpos := List.count_pos_iff.2 hcon
        omega
      · intro ci2 hci2 tid htid
        have hcc : ci = ci2 := Option.some.inj hci2
        subst hcc
        have hnone : ts2.find? (·._id == tid) = none := by
          rw [← hts2, List.find?_eq_none]
          intro t ht hbeq
          have hmf := List.mem_filter.1 ht
          have hcont := hmf.2
          have hid : t._id = tid := by simpa using hbeq
          have hmem3 : t._id ∈ (board.columns.getD ci default).taskIds := hid ▸ htid
          have h5 : ((board.columns.getD ci default).taskIds).contains t._id = true :=
            List.elem_iff.2 hmem3
          rw [h5] at hcont
          exact Bool.noConfusion hcont
        rw [taskQuery, hnone]

/-- C7 witness: deleting a column id that is not on the board fails with
NotFound. -/
theorem deleteColumn_spec_witness :
    deleteColumnHandler exBoardC2 [] 5 = Except.error Err.notFound :=
  (deleteColumn_spec exBoardC2 [] 5 (by decide) (by decide)).1.2 (by decide)

/-! ### C8: default board on project creation -/

def exEmptyStore : Store := ⟨[], [], [], [], []⟩

/-- C8: creating a project also creates a default board whose columns are
exactly three, titled To Do / In Progress / Done in that order, each with
an empty `taskIds`, and whose `columnOrder` lists those three column ids
in the same order; the path never yields a board with zero columns. -/
theorem createProject_default_board (s : Store) (userId : Id)
    (name description : String) (fresh : Id) (hname : name ≠ "") :
    ∃ s2 project board,
      createProjectRoute s userId name description fresh =
        Except.ok (s2, project, board) ∧
      board.project = project._id ∧
      board.columns.map (·.title) = ["To Do", "In Progress", "Done"] ∧
      board.columns.map (·.taskIds) = [[], [], []] ∧
      board.columnOrder = colIds board ∧
      board.columns.length = 3 := by
  rw [createProjectRoute, if_neg hname]
  exact ⟨_, _, _, rfl, rfl, rfl, rfl, rfl, rfl⟩

/-- C8 witness. -/
theorem createProject_default_board_witness :
    ∃ s2 project board,
      createProjectRoute exEmptyStore 7 "Eng" "" 100 =
        Except.ok (s2, project, board) ∧
      board.project = project._id ∧
      board.columns.map (·.title) = ["To Do", "In Progress", "Done"] ∧
      board.columns.map (·.taskIds) = [[], [], []] ∧
      board.columnOrder = colIds board ∧
      board.columns.length = 3 :=
  createProject_default_board exEmptyStore 7 "Eng" "" 100 (by decide)

/-! ### C9: access-control resolution chain -/

/-- C9: the access checks fail with NotFound exactly when a link of the
resolution chain (task → board → owning project) is missing, and with
Forbidden exactly when the chain resolves but the requester is not in the
project's members; a guarded route whose check fails returns that error
and leaves the store unchanged (the handler never runs). -/
theorem access_control_spec (s : Store) (userId taskId boardId : Id) :
    ((canAccessTask s userId taskId = Except.error Err.notFound) ↔
      (s.findTask taskId = none ∨
       ∃ t, s.findTask taskId = some t ∧
         (s.findBoard t.board = none ∨
          ∃ b, s.findBoard t.board = some b ∧ s.findProject b.project = none))) ∧
    ((canAccessTask s userId taskId = Except.error Err.forbidden) ↔
      (∃ t b p, s.findTask taskId = some t ∧ s.findBoard t.board = some b ∧
        s.findProject b.project = some p ∧ isMemberOf p userId = false)) ∧
    ((canAccessBoard s userId boardId = Except.error Err.notFound) ↔
      (s.findBoard boardId = none ∨
       ∃ b, s.findBoard boardId = some b ∧ s.findProject b.project = none)) ∧
    ((canAccessBoard s userId boardId = Except.error Err.forbidden) ↔
      (∃ b p, s.findBoard boardId = some b ∧ s.findProject b.project = some p ∧
        isMemberOf p userId = false)) ∧
    (∀ e handler, canAccessTask s userId taskId = Except.error e →
      runTaskRoute s userId taskId handler = Except.error e ∧
      applyRoute s (runTaskRoute s userId taskId handler) = s) ∧
    (∀ e handler, canAccessBoard s userId boardId = Except.error e →
      runBoardRoute s userId boardId handler = Except.error e ∧
      applyRoute s (runBoardRoute s userId boardId handler) = s) := by
  refine ⟨?_, ?_, ?_, ?_, ?_, ?_⟩
  · unfold canAccessTask
    cases h1 : s.findTask taskId with
    | none => simp [h1]
    | some t =>
      cases h2 : s.findBoard t.board with
      | none => simp [h1, h2]
      | some b =>
        cases h3 : s.findProject b.project with
        | none => simp [h1, h2, h3]
        | some p =>
          by_cases hm : isMemberOf p userId = true
          · simp [h1, h2, h3, hm]
          · simp [h1, h2, h3, hm]
  · unfold canAccessTask
    cases h1 : s.findTask taskId with
    | none => simp [h1]
    | some t =>
      cases h2 : s.findBoard t.board with
      | none => simp [h1, h2]
      | some b =>
        cases h3 : s.findProject b.project with
        | none => simp [h1, h2, h3]
        | some p =>
          by_cases hm : isMemberOf p userId = true
          · simp [h1, h2, h3, hm]
          · simp [h1, h2, h3, hm]
  · unfold canAccessBoard
    cases h2 : s.findBoard boardId with
    | none => simp [h2]
    | some b =>
      cases h3 : s.findProject b.project with
      | none => simp [h2, h3]
      | some p =>
        by_cases hm : isMemberOf p userId = true
        · simp [h2, h3, hm]
        · simp [h2, h3, hm]
  · unfold canAccessBoard
    cases h2 : s.findBoard boardId with
    | none => simp [h2]
    | some b =>
      cases h3 : s.findProject b.project with
      | none => simp [h2, h3]
      | some p =>
        by_cases hm : isMemberOf p userId = true
        · simp [h2, h3, hm]
        · simp [h2, h3, hm]
  · intro e handler he
    refine ⟨?_, ?_⟩
    · simp only [runTaskRoute, he]
    · simp only [runTaskRoute, he, applyRoute]
  · intro e handler he
    refine ⟨?_, ?_⟩
    · simp only [runBoardRoute, he]
    · simp only [runBoardRoute, he, applyRoute]

/-- C9 witness: a missing task fails the chain with NotFound and the
guarded route mutates nothing. -/
theorem access_control_spec_witness :
    runTaskRoute exEmptyStore 1 99 (fun _ _ _ => Except.ok exEmptyStore) =
      Except.error Err.notFound ∧
    applyRoute exEmptyStore
      (runTaskRoute exEmptyStore 1 99 (fun _ _ _ => Except.ok exEmptyStore)) =
      exEmptyStore :=
  (access_control_spec exEmptyStore 1 99 0).2.2.2.2.1 Err.notFound
    (fun _ _ _ => Except.ok exEmptyStore) (by rfl)

/-! ### C10: deleteProject leaves the Task collection unchanged -/

/-- C10: a successful project deletion removes the project document, the
boards referencing it, and the activities and notifications referencing
it, but leaves the Task collection unchanged — every existing task
survives; the board-to-tasks cascade runs only in the standalone board
deletion route. -/
theorem deleteProject_task_frame :
    (∀ (s s2 : Store) (userId projectId : Id),
      deleteProjectRoute s userId projectId = Except.ok s2 →
      s2.projects = eraseById s.projects (·._id) projectId ∧
      s2.boards = s.boards.filter (fun b => !(b.project == projectId)) ∧
      s2.activities = s.activities.filter (fun a => !(a.projectId == projectId)) ∧
      s2.notifications = s.notifications.filter (fun n => !(n.projectId == projectId)) ∧
      s2.tasks = s.tasks ∧
      (∀ t ∈ s.tasks, t ∈ s2.tasks)) ∧
    (∀ (s s2 : Store) (userId boardId : Id),
      deleteBoardRoute s userId boardId = Except.ok s2 →
      s2.tasks = s.tasks.filter (fun t => !(t.board == boardId))) := by
  constructor
  · intro s s2 userId projectId h
    unfold deleteProjectRoute at h
    cases h1 : s.findProject projectId with
    | none =>
      simp only [h1] at h
      exact Except.noConfusion h
    | some project =>
      simp only [h1] at h
      cases h2 : project.members.find? (fun m => m.user == userId) with
      | none =>
        simp only [h2] at h
        exact Except.noConfusion h
      | some m =>
        simp only [h2] at h
        by_cases h3 : m.role ≠ Role.admin ∧ m.role ≠ Role.owner
        · rw [if_pos h3] at h
          exact Except.noConfusion h
        · rw [if_neg h3] at h
          by_cases h4 : project.owner ≠ userId
          · rw [if_pos h4] at h
            exact Except.noConfusion h
          · rw [if_neg h4] at h
            have hs2 := Except.ok.inj h
            subst hs2
            exact ⟨rfl, rfl, rfl, rfl, rfl, fun t ht => ht⟩
  · intro s s2 userId boardId h
    unfold deleteBoardRoute at h
    cases h1 : canAccessBoard s userId boardId with
    | error e =>
      simp only [h1] at h
      exact Except.noConfusion h
    | ok pr =>
      obtain ⟨board, project⟩ := pr
      simp only [h1] at h
      cases h2 : project.members.find? (fun m => m.user == userId) with
      | none =>
        simp only [h2] at h
        exact Except.noConfusion h
      | some m =>
        simp only [h2] at h
        by_cases h3 : m.role ≠ Role.admin ∧ m.role ≠ Role.owner
        · rw [if_pos h3] at h
          exact Except.noConfusion h
        · rw [if_neg h3] at h
          have hs2 := Except.ok.inj h
          subst hs2
          rfl

def exStoreC10 : Store :=
  { projects := [⟨1, "p", "", 7, [⟨7, Role.owner⟩]⟩],
    boards := [⟨2, "b", "", 1, [], []⟩],
    tasks := [⟨3, "t", 2, 0, 0⟩],
    activities := [⟨7, 1⟩],
    notifications := [⟨7, 1⟩] }

def exStoreC10res : Store := ⟨[], [], [⟨3, "t", 2, 0, 0⟩], [], []⟩

/-- C10 witness: the owner deletes the project; its board, activity and
notification are gone, the task survives. -/
theorem deleteProject_task_frame_witness :
    exStoreC10res.tasks = exStoreC10.tasks ∧
    (∀ t ∈ exStoreC10.tasks, t ∈ exStoreC10res.tasks) := by
  have h := deleteProject_task_frame.1 exStoreC10 exStoreC10res 7 1 (by rfl)
  exact ⟨h.2.2.2.2.1, h.2.2.2.2.2⟩

/-! ### C6: idempotence of moveTask -/

theorem getD_eq_get (l : List α) (d : α) {n : Nat} (h : n < l.length) :
    l.getD n d = l.get ⟨n, h⟩ := by
  rw [List.getD_eq_getElem?_getD, List.getElem?_eq_getElem h]
  rfl

theorem getD_mem (l : List α) (d : α) {i : Nat} (h : i < l.length) :
    l.getD i d ∈ l := by
  rw [getD_eq_get l d h]
  exact List.get_mem l i h

theorem getD_modifyAt_self (l : List α) (i : Nat) (f : α → α) (d : α)
    (hi : i < l.length) : (modifyAt l i f).getD i d = f (l.getD i d) := by
  have h2 : i < (modifyAt l i f).length := by
    rw [length_modifyAt]
    exact hi
  rw [getD_eq_get _ _ h2, getD_eq_get _ _ hi, get_modifyAt_self _ _ _ _ hi]

theorem getD_modifyAt_ne (l : List α) (i : Nat) (f : α → α) (d : α) (j : Nat)
    (hj : j < l.length) (hne : j ≠ i) :
    (modifyAt l i f).getD j d = l.getD j d := by
  have h2 : j < (modifyAt l i f).length := by
    rw [length_modifyAt]
    exact hj
  rw [getD_eq_get _ _ h2, getD_eq_get _ _ hj, get_modifyAt_ne _ _ _ _ _ hj hne]

/-- A move whose remove-then-insert leaves the target column unchanged is
the identity on the board. -/
theorem moveTaskHandler_eq_of (b : Board) (t : Task) (columnId : Id)
    (order : Int) (ti : Nat)
    (ht : b.findColumnIdx columnId = some ti)
    (hcol : t.column = columnId)
    (hti : ti < b.columns.length)
    (hself : ({ b.columns.getD ti default with taskIds := spliceInsert (removeById ((b.columns.getD ti default).taskIds) t._id) order t._id } : Column) = b.columns.getD ti default) :
    moveTaskHandler t b columnId order =
      Except.ok (b, { t with column := columnId, order := order }) := by
  have hself2 : (fun c => { c with taskIds := spliceInsert (removeById c.taskIds t._id) order t._id }) (b.columns.get ⟨ti, hti⟩) = b.columns.get ⟨ti, hti⟩ := by
    rw [← getD_eq_get b.columns default hti]
    exact hself
  simp only [moveTaskHandler, ht, removeTaskFromBoard, hcol]
  have hkey : modifyAt (modifyAt b.columns ti (fun c => { c with taskIds := removeById c.taskIds t._id })) ti (fun c => { c with taskIds := spliceInsert c.taskIds order t._id }) = b.columns := by
    rw [modifyAt_modifyAt]
    exact modifyAt_eq_self b.columns ti _ hti hself2
  rw [hkey]

/-- C6: moveTask is idempotent under re-application with the same
destination column and index: starting from a well-formed board (distinct
column ids; the moved task occurs at most once in any column and only in
the column its denormalized `column` field names), applying
moveTask(T, C, i) and then moveTask(T, C, i) again with no intervening
mutation yields the same final board (hence the same taskIds orderings)
and the same task fields as applying it once. -/
theorem moveTask_idempotent (board : Board) (task : Task) (columnId : Id)
    (order : Int) (b1 : Board) (t1 : Task)
    (_h0 : 0 ≤ order)
    (hnodup : (colIds board).Nodup)
    (hcount : ∀ c ∈ board.columns, c.taskIds.count task._id ≤ 1)
    (hplace : ∀ c ∈ board.columns, task._id ∈ c.taskIds → c._id = task.column)
    (h1 : moveTaskHandler task board columnId order = Except.ok (b1, t1)) :
    moveTaskHandler t1 b1 columnId order = Except.ok (b1, t1) := by
  cases ht : board.findColumnIdx columnId with
  | none =>
    rw [moveTaskHandler, ht] at h1
    exact Except.noConfusion h1
  | some ti =>
    simp only [moveTaskHandler, ht] at h1
    have hpair := Except.ok.inj h1
    have hb1 : ({ removeTaskFromBoard board task with columns := modifyAt (removeTaskFromBoard board task).columns ti (fun c => { c with taskIds := spliceInsert c.taskIds order task._id }) } : Board) = b1 :=
      congrArg Prod.fst hpair
    have ht1 : ({ task with column := columnId, order := order } : Task) = t1 :=
      congrArg Prod.snd hpair
    have htb : ti < board.columns.length := findColumnIdx_some_lt ht
    have htiR : ti < (removeTaskFromBoard board task).columns.length := by
      rw [length_columns_removeTaskFromBoard]
      exact htb
    -- after the source-removal step the moved task's id is not in the
    -- target column
    have hM : task._id ∉ ((removeTaskFromBoard board task).columns.getD ti default).taskIds := by
      cases hs : board.findColumnIdx task.column with
      | none =>
        have hRC : (removeTaskFromBoard board task).columns = board.columns := by
          rw [removeTaskFromBoard, hs]
        rw [hRC]
        intro hmem
        have hmem2 : board.columns.getD ti default ∈ board.columns := getD_mem board.columns default htb
        have hpl := hplace _ hmem2 hmem
        have hfalse := findIndex_eq_none_iff.1 hs _ hmem2
        rw [hpl] at hfalse
        simp at hfalse
      | some si =>
        have hRC : (removeTaskFromBoard board task).columns = modifyAt board.columns si (fun c => { c with taskIds := removeById c.taskIds task._id }) := by
          rw [removeTaskFromBoard, hs]
        have hsb : si < board.columns.length := findColumnIdx_some_lt hs
        rcases eq_or_ne ti si with heq | hne
        · subst heq
          rw [hRC, getD_modifyAt_self _ _ _ _ htb]
          show task._id ∉ removeById ((board.columns.getD ti default).taskIds) task._id
          intro hmem
          have hc1 := hcount (board.columns.getD ti default) (getD_mem board.columns default htb)
          have hc2 := count_removeById_self ((board.columns.getD ti default).taskIds) task._id
          have hc3 := List.count_pos_iff.2 hmem
          omega
        · rw [hRC, getD_modifyAt_ne _ _ _ _ _ htb hne]
          intro hmem
          have hpl := hplace (board.columns.getD ti default) (getD_mem board.columns default htb) hmem
          have hid : (board.columns.getD si default)._id = task.column := by
            rw [getD_eq_get board.columns default hsb]
            exact findColumnIdx_some_id hs hsb
          have heq2 : (board.columns.get ⟨ti, htb⟩)._id = (board.columns.get ⟨si, hsb⟩)._id := by
            rw [← getD_eq_get board.columns default htb, ← getD_eq_get board.columns default hsb, hpl, hid]
          exact hne (nodup_map_get_inj hnodup htb hsb heq2)
    have hcl : colIds ({ removeTaskFromBoard board task with columns := modifyAt (removeTaskFromBoard board task).columns ti (fun c => { c with taskIds := spliceInsert c.taskIds order task._id }) } : Board) = colIds board := by
      rw [colIds_modify_taskIds (removeTaskFromBoard board task) ti (fun l => spliceInsert l order task._id)]
      exact colIds_removeTaskFromBoard board task
    have hrem : removeById (spliceInsert (((removeTaskFromBoard board task).columns.getD ti default).taskIds) order task._id) task._id = ((removeTaskFromBoard board task).columns.getD ti default).taskIds :=
      removeById_insertAtNat_self _ _ _ hM (spliceStart_le order _)
    rw [← hb1, ← ht1]
    refine moveTaskHandler_eq_of _ _ columnId order ti ?_ rfl ?_ ?_
    · exact (findColumnIdx_congr hcl columnId).trans ht
    · show ti < (modifyAt (removeTaskFromBoard board task).columns ti (fun c => { c with taskIds := spliceInsert c.taskIds order task._id })).length
      rw [length_modifyAt]
      exact htiR
    · have hCC : ({ removeTaskFromBoard board task with columns := modifyAt (removeTaskFromBoard board task).columns ti (fun c => { c with taskIds := spliceInsert c.taskIds order task._id }) } : Board).columns.getD ti default = { (removeTaskFromBoard board task).columns.getD ti default with taskIds := spliceInsert (((removeTaskFromBoard board task).columns.getD ti default).taskIds) order task._id } := by
        show (modifyAt (removeTaskFromBoard board task).columns ti (fun c => { c with taskIds := spliceInsert c.taskIds order task._id })).getD ti default = _
        rw [getD_modifyAt_self _ _ _ _ htiR]
      rw [hCC]
      show ({ (removeTaskFromBoard board task).columns.getD ti default with taskIds := spliceInsert (removeById (spliceInsert (((removeTaskFromBoard board task).columns.getD ti default).taskIds) order task._id) task._id) order task._id } : Column) = { (removeTaskFromBoard board task).columns.getD ti default with taskIds := spliceInsert (((removeTaskFromBoard board task).columns.getD ti default).taskIds) order task._id }
      rw [hrem]

/-- C6 witness: moving a task to another column twice at the same index
is the same as moving it once. -/
theorem moveTask_idempotent_witness :
    moveTaskHandler (⟨7, "t", 30, 1, 0⟩ : Task)
        ({ exBoardC1 with columns := [⟨0, "src", 0, [5, 9]⟩, ⟨1, "dst", 1, [7]⟩] }) 1 0 =
      Except.ok ({ exBoardC1 with columns := [⟨0, "src", 0, [5, 9]⟩, ⟨1, "dst", 1, [7]⟩] },
        ⟨7, "t", 30, 1, 0⟩) :=
  moveTask_idempotent
    ({ exBoardC1 with columns := [⟨0, "src", 0, [5, 7, 9]⟩, ⟨1, "dst", 1, []⟩] })
    (⟨7, "t", 30, 0, 2⟩ : Task) 1 0
    ({ exBoardC1 with columns := [⟨0, "src", 0, [5, 9]⟩, ⟨1, "dst", 1, [7]⟩] })
    (⟨7, "t", 30, 1, 0⟩ : Task)
    (by decide) (by decide) (by decide) (by decide) (by rfl)

/-! ### C4: columnOrder stays a permutation of the column ids -/

theorem createColumn_ok_perm {board b2 : Board} {title : String} {newId : Id}
    (hperm : board.columnOrder.Perm (colIds board))
    (h : createColumn board title newId = Except.ok b2) :
    b2.columnOrder.Perm (colIds b2) := by
  unfold createColumn at h
  by_cases ht : title = ""
  · rw [if_pos ht] at h
    exact Except.noConfusion h
  · rw [if_neg ht] at h
    have hb2 := Except.ok.inj h
    subst hb2
    show (board.columnOrder ++ [newId]).Perm (colIds _)
    unfold colIds
    simp only [List.map_append, List.map_cons, List.map_nil]
    exact hperm.append (List.Perm.refl _)

theorem deleteColumn_ok_perm {board b2 : Board} {tasks ts2 : List Task}
    {columnId : Id}
    (hperm : board.columnOrder.Perm (colIds board))
    (h : deleteColumnHandler board tasks columnId = Except.ok (b2, ts2)) :
    b2.columnOrder.Perm (colIds b2) := by
  cases hf : board.findColumnIdx columnId with
  | none =>
    rw [deleteColumnHandler, hf] at h
    exact Except.noConfusion h
  | some ci =>
    rw [deleteColumnHandler, hf] at h
    have hpair := Except.ok.inj h
    have hb2 : ({ board with columns := board.columns.eraseIdx ci, columnOrder := removeById board.columnOrder columnId } : Board) = b2 :=
      congrArg Prod.fst hpair
    subst hb2
    have hcols : colIds ({ board with columns := board.columns.eraseIdx ci, columnOrder := removeById board.columnOrder columnId } : Board) = (colIds board).erase columnId := by
      show (board.columns.eraseIdx ci).map (·._id) = _
      rw [map_eraseIdx]
      apply eraseIdx_of_findIndex_beq
      show findIndex (fun x => x == columnId) (colIds board) = some ci
      rw [← findColumnIdx_eq_findIndex_colIds]
      exact hf
    rw [hcols]
    show (removeById board.columnOrder columnId).Perm ((colIds board).erase columnId)
    rw [removeById_eq_erase]
    exact hperm.erase columnId

theorem reorderColumns_ok_perm {board b2 : Board} {newOrder : List Id}
    (h : reorderColumns board newOrder = Except.ok b2)
    (hperm : newOrder.Perm (colIds board)) :
    b2.columnOrder.Perm (colIds b2) := by
  by_cases hv : newOrder.all (fun id => (colIds board).contains id) = true
  · have hok : reorderColumns board newOrder = Except.ok { board with columnOrder := newOrder, columns := applyOrderUpdates board.columns newOrder.enum } := by
      simp [reorderColumns, hv]
      exact (all_contains_iff newOrder (colIds board)).1 hv
    rw [hok] at h
    have hb2 := Except.ok.inj h
    subst hb2
    show newOrder.Perm (colIds _)
    show newOrder.Perm ((applyOrderUpdates board.columns newOrder.enum).map (·._id))
    rw [map_id_applyOrderUpdates]
    exact hperm
  · have hv2 : (newOrder.all fun id => (colIds board).contains id) = false :=
      Bool.eq_false_iff.2 hv
    rw [reorderColumns] at h
    simp only [hv2, Bool.not_false, if_true] at h
    exact Except.noConfusion h

/-- Each reorder in the op list receives an exact permutation of the
column ids of the board it is applied to (whenever it passes the
known-ids check). -/
def SafeReorders : TState → List COp → Prop
  | _, [] => True
  | s, op :: rest =>
    (∀ newOrder, op = COp.reorder newOrder →
      (∀ id ∈ newOrder, id ∈ colIds s.board) → newOrder.Perm (colIds s.board)) ∧
    SafeReorders (stepC s op) rest

theorem stepC_perm (s : TState) (op : COp)
    (hperm : s.board.columnOrder.Perm (colIds s.board))
    (hop : ∀ newOrder, op = COp.reorder newOrder →
      (∀ id ∈ newOrder, id ∈ colIds s.board) → newOrder.Perm (colIds s.board)) :
    (stepC s op).board.columnOrder.Perm (colIds (stepC s op).board) := by
  cases op with
  | createCol title =>
    cases h : createColumn s.board title s.nextId with
    | error e =>
      simp only [stepC, h]
      exact hperm
    | ok b2 =>
      simp only [stepC, h]
      exact createColumn_ok_perm hperm h
  | delCol columnId =>
    cases h : deleteColumnHandler s.board s.tasks columnId with
    | error e =>
      simp only [stepC, h]
      exact hperm
    | ok pr =>
      obtain ⟨b2, ts2⟩ := pr
      simp only [stepC, h]
      exact deleteColumn_ok_perm hperm h
  | reorder newOrder =>
    cases h : reorderColumns s.board newOrder with
    | error e =>
      simp only [stepC, h]
      exact hperm
    | ok b2 =>
      simp only [stepC, h]
      by_cases hall : ∀ id ∈ newOrder, id ∈ colIds s.board
      · exact reorderColumns_ok_perm h (hop newOrder rfl hall)
      · exfalso
        have hv2 : (newOrder.all fun id => (colIds s.board).contains id) = false := by
          rw [Bool.eq_false_iff]
          intro hv
          exact hall ((all_contains_iff newOrder (colIds s.board)).1 hv)
        rw [reorderColumns] at h
        simp only [hv2, Bool.not_false, if_true] at h
        exact Except.noConfusion h

def exBoardC4 : Board :=
  { _id := 40, title := "b", description := "", project := 1,
    columns := [⟨0, "c0", 0, []⟩, ⟨1, "c1", 1, []⟩], columnOrder := [0, 1] }

def exTS0C4 : TState := { board := exBoardC4, tasks := [], nextId := 100 }

/-- C4 counterexample: the reorder route accepts the strict subset `[1]`
of the column ids `[0, 1]`, after which `columnOrder` is no longer a
permutation of the column ids. -/
theorem columnOrder_not_perm_after_subset_reorder :
    ¬ (([COp.reorder [1]].foldl stepC exTS0C4).board.columnOrder.Perm
        (colIds ([COp.reorder [1]].foldl stepC exTS0C4).board)) := by
  decide

/-- C4 (amended): after any sequence of createColumn, deleteColumn and
reorderColumns operations in which every reorder that passes the
known-ids check receives an exact permutation of the current column ids,
`columnOrder` remains a permutation of the set of the board's column ids;
the code itself also accepts non-permutation reorder lists, which break
the invariant. -/
theorem columnOrder_permutation_invariant (s0 : TState) (ops : List COp)
    (hperm : s0.board.columnOrder.Perm (colIds s0.board))
    (hsafe : SafeReorders s0 ops) :
    (ops.foldl stepC s0).board.columnOrder.Perm
      (colIds (ops.foldl stepC s0).board) := by
  induction ops generalizing s0 with
  | nil => exact hperm
  | cons op rest ih =>
    rw [List.foldl_cons]
    exact ih (stepC s0 op) (stepC_perm s0 op hperm hsafe.1) hsafe.2

/-- C4 witness: a create, a full-permutation reorder and a delete keep
the invariant. -/
theorem columnOrder_permutation_invariant_witness :
    (([COp.createCol "x", COp.reorder [1, 0, 100], COp.delCol 0].foldl stepC exTS0C4).board.columnOrder.Perm
      (colIds ([COp.createCol "x", COp.reorder [1, 0, 100], COp.delCol 0].foldl stepC exTS0C4).board)) := by
  apply columnOrder_permutation_invariant
  · decide
  · refine ⟨?_, ?_, ?_, trivial⟩
    · intro newOrder hcon
      exact absurd hcon (by simp)
    · intro newOrder hcon
      have h2 : [1, 0, 100] = newOrder := by
        injection hcon
      subst h2
      intro _
      decide
    · intro newOrder hcon
      exact absurd hcon (by simp)

/-! ### C3: the denormalized column/order fields -/

theorem taskIds_set (c : Column) (l : List Id) :
    ({ c with taskIds := l } : Column).taskIds = l := rfl

theorem id_set_taskIds (c : Column) (l : List Id) :
    ({ c with taskIds := l } : Column)._id = c._id := rfl

theorem forall_mem_iff_getD (l : List α) (d : α) {P : α → Prop} :
    (∀ x ∈ l, P x) ↔ ∀ i, ∀ _h : i < l.length, P (l.getD i d) := by
  constructor
  · intro h i hi
    exact h _ (getD_mem l d hi)
  · intro h x hx
    obtain ⟨⟨i, hi⟩, rfl⟩ := List.mem_iff_get.1 hx
    have h2 := h i hi
    rwa [getD_eq_get l d hi] at h2

theorem nodup_map_getD_inj {l : List α} {f : α → β}
    (h : (l.map f).Nodup) (d : α) {i j : Nat} (hi : i < l.length)
    (hj : j < l.length) (he : f (l.getD i d) = f (l.getD j d)) : i = j := by
  apply nodup_map_get_inj h hi hj
  rwa [← getD_eq_get l d hi, ← getD_eq_get l d hj]

/-- Pointwise description of the board after the shared source-column
removal step. -/
theorem getD_removeTaskFromBoard (board : Board) (task : Task) (j : Nat)
    (hj : j < board.columns.length) :
    (removeTaskFromBoard board task).columns.getD j default =
      (if board.findColumnIdx task.column = some j
       then { board.columns.getD j default with taskIds := removeById ((board.columns.getD j default).taskIds) task._id }
       else board.columns.getD j default) := by
  cases hs : board.findColumnIdx task.column with
  | none =>
    rw [if_neg (by simp)]
    have hRC : (removeTaskFromBoard board task).columns = board.columns := by
      rw [removeTaskFromBoard, hs]
    rw [hRC]
  | some si =>
    have hRC : (removeTaskFromBoard board task).columns =
        modifyAt board.columns si (fun c => { c with taskIds := removeById c.taskIds task._id }) := by
      rw [removeTaskFromBoard, hs]
    rcases eq_or_ne j si with rfl | hne
    · rw [if_pos rfl, hRC, getD_modifyAt_self _ _ _ _ hj]
    · rw [if_neg (fun hcon => hne (Option.some.inj hcon).symm), hRC,
        getD_modifyAt_ne _ _ _ _ _ hj hne]

/-- If the search for `cid` does not stop at position `j`, the column at
`j` does not carry id `cid` (given distinct column ids). -/
theorem getD_id_ne_of_findColumnIdx_ne (board : Board) (cid : Id) (j : Nat)
    (hj : j < board.columns.length) (hnodup : (colIds board).Nodup)
    (hne : board.findColumnIdx cid ≠ some j) :
    (board.columns.getD j default)._id ≠ cid := by
  intro hcon
  cases hs : board.findColumnIdx cid with
  | none =>
    have h2 := findIndex_eq_none_iff.1 hs _ (getD_mem board.columns default hj)
    rw [hcon] at h2
    simp at h2
  | some si =>
    have hsb : si < board.columns.length := findColumnIdx_some_lt hs
    have hsi : (board.columns.getD si default)._id = cid := by
      rw [getD_eq_get _ _ hsb]
      exact findColumnIdx_some_id hs hsb
    have hji : j = si := nodup_map_getD_inj hnodup default hj hsb (hcon.trans hsi.symm)
    apply hne
    rw [hs, hji]

theorem stepT_create_WFT (s : TState) (columnId : Id) (title : String)
    (h : WFT s) : WFT (stepT s (TOp.create columnId title)) := by
  cases hc : createTaskHandler s.board columnId title s.nextId with
  | error e =>
    simp only [stepT, hc]
    exact h
  | ok pr =>
    obtain ⟨b2, t⟩ := pr
    simp only [stepT, hc]
    rw [createTaskHandler] at hc
    by_cases hv : title = ""
    · rw [if_pos hv] at hc
      exact Except.noConfusion hc
    · rw [if_neg hv] at hc
      cases hf : s.board.findColumnIdx columnId with
      | none =>
        rw [hf] at hc
        exact Except.noConfusion hc
      | some ci =>
        rw [hf] at hc
        have hpair := Except.ok.inj hc
        have hb2 : ({ s.board with columns := modifyAt s.board.columns ci (fun c => { c with taskIds := c.taskIds ++ [s.nextId] }) } : Board) = b2 :=
          congrArg Prod.fst hpair
        have htk : ({ _id := s.nextId, title := title, board := s.board._id, column := columnId, order := ((s.board.columns.getD ci default).taskIds.length : Int) } : Task) = t :=
          congrArg Prod.snd hpair
        subst hb2
        subst htk
        obtain ⟨h1, h2, h3, h4, h5⟩ := h
        have hcb : ci < s.board.columns.length := findColumnIdx_some_lt hf
        have hcid : (s.board.columns.getD ci default)._id = columnId := by
          rw [getD_eq_get _ _ hcb]
          exact findColumnIdx_some_id hf hcb
        refine ⟨?_, ?_, ?_, ?_, ?_⟩
        · show (colIds ({ s.board with columns := modifyAt s.board.columns ci (fun c => { c with taskIds := c.taskIds ++ [s.nextId] }) } : Board)).Nodup
          rw [colIds_modify_taskIds s.board ci (fun l => l ++ [s.nextId])]
          exact h1
        · show ((s.tasks ++ [({ _id := s.nextId, title := title, board := s.board._id, column := columnId, order := ((s.board.columns.getD ci default).taskIds.length : Int) } : Task)]).map (·._id)).Nodup
          rw [List.map_append]
          simp only [List.map_cons, List.map_nil]
          rw [List.nodup_append]
          refine ⟨h2, by simp, ?_⟩
          intro a ha hb
          simp only [List.mem_singleton] at hb
          subst hb
          obtain ⟨t0, ht0, hid0⟩ := List.mem_map.1 ha
          have hlt := h3 t0 ht0
          rw [hid0] at hlt
          exact absurd hlt (lt_irrefl _)
        · intro t2 ht2
          rcases List.mem_append.1 ht2 with h6 | h6
          · exact Nat.lt_succ_of_lt (h3 t2 h6)
          · simp only [List.mem_singleton] at h6
            subst h6
            show s.nextId < s.nextId + 1
            exact Nat.lt_succ_self s.nextId
        · show ∀ c ∈ modifyAt s.board.columns ci (fun c => { c with taskIds := c.taskIds ++ [s.nextId] }), ∀ i ∈ c.taskIds, i < s.nextId + 1
          refine (forall_mem_iff_getD _ default).2 ?_
          intro j hj
          rw [length_modifyAt] at hj
          rcases eq_or_ne j ci with rfl | hne
          · rw [getD_modifyAt_self _ _ _ _ hj]
            show ∀ i ∈ (s.board.columns.getD j default).taskIds ++ [s.nextId], i < s.nextId + 1
            intro i hi
            rcases List.mem_append.1 hi with h7 | h7
            · exact Nat.lt_succ_of_lt (h4 _ (getD_mem s.board.columns default hj) i h7)
            · simp only [List.mem_singleton] at h7
              subst h7
              exact Nat.lt_succ_self s.nextId
          · rw [getD_modifyAt_ne _ _ _ _ _ hj hne]
            intro i hi
            exact Nat.lt_succ_of_lt (h4 _ (getD_mem s.board.columns default hj) i hi)
        · show ∀ t2 ∈ s.tasks ++ [({ _id := s.nextId, title := title, board := s.board._id, column := columnId, order := ((s.board.columns.getD ci default).taskIds.length : Int) } : Task)], ∀ c ∈ modifyAt s.board.columns ci (fun c => { c with taskIds := c.taskIds ++ [s.nextId] }), c.taskIds.count t2._id = if c._id = t2.column then 1 else 0
          intro t2 ht2
          refine (forall_mem_iff_getD _ default).2 ?_
          intro j hj
          rw [length_modifyAt] at hj
          rcases List.mem_append.1 ht2 with h6 | h6
          · have hne_id : t2._id ≠ s.nextId := by
              have h8 := h3 t2 h6
              exact Nat.ne_of_lt h8
            rcases eq_or_ne j ci with rfl | hne
            · rw [getD_modifyAt_self _ _ _ _ hj]
              show ((s.board.columns.getD j default).taskIds ++ [s.nextId]).count t2._id = if (s.board.columns.getD j default)._id = t2.column then 1 else 0
              rw [List.count_append]
              have hsing : ([s.nextId] : List Id).count t2._id = 0 := by
                rw [List.count_eq_zero]
                simp only [List.mem_singleton]
                exact hne_id
              rw [hsing, Nat.add_zero]
              exact h5 t2 h6 _ (getD_mem s.board.columns default hj)
            · rw [getD_modifyAt_ne _ _ _ _ _ hj hne]
              exact h5 t2 h6 _ (getD_mem s.board.columns default hj)
          · simp only [List.mem_singleton] at h6
            subst h6
            rcases eq_or_ne j ci with rfl | hne
            · rw [getD_modifyAt_self _ _ _ _ hj]
              show ((s.board.columns.getD j default).taskIds ++ [s.nextId]).count s.nextId = if (s.board.columns.getD j default)._id = columnId then 1 else 0
              rw [List.count_append, hcid, if_pos rfl]
              have hc0 : (s.board.columns.getD j default).taskIds.count s.nextId = 0 := by
                rw [List.count_eq_zero]
                intro hmem
                have h8 := h4 _ (getD_mem s.board.columns default hj) _ hmem
                exact absurd h8 (lt_irrefl _)
              rw [hc0]
              simp
            · rw [getD_modifyAt_ne _ _ _ _ _ hj hne]
              show (s.board.columns.getD j default).taskIds.count s.nextId = if (s.board.columns.getD j default)._id = columnId then 1 else 0
              have hne2 : (s.board.columns.getD j default)._id ≠ columnId := by
                apply getD_id_ne_of_findColumnIdx_ne s.board columnId j hj h1
                rw [hf]
                intro hcon
                exact hne (Option.some.inj hcon).symm
              rw [if_neg hne2, List.count_eq_zero]
              intro hmem
              have h8 := h4 _ (getD_mem s.board.columns default hj) _ hmem
              exact absurd h8 (lt_irrefl _)

theorem count_spliceInsert (l : List Id) (start : Int) (a x : Id) :
    (spliceInsert l start a).count x = l.count x + if x = a then 1 else 0 :=
  count_insertAtNat l (spliceStart start l.length) a x

theorem mem_spliceInsert {l : List Id} {start : Int} {a x : Id} :
    x ∈ spliceInsert l start a ↔ x = a ∨ x ∈ l :=
  mem_insertAtNat

theorem stepT_move_WFT (s : TState) (taskId columnId : Id) (order : Int)
    (h : WFT s) : WFT (stepT s (TOp.move taskId columnId order)) := by
  cases hft : s.tasks.find? (·._id == taskId) with
  | none =>
    simp only [stepT, hft]
    exact h
  | some task =>
    cases hmv : moveTaskHandler task s.board columnId order with
    | error e =>
      simp only [stepT, hft, hmv]
      exact h
    | ok pr =>
      obtain ⟨b2, t2⟩ := pr
      simp only [stepT, hft, hmv]
      cases ht : s.board.findColumnIdx columnId with
      | none =>
        rw [moveTaskHandler, ht] at hmv
        exact Except.noConfusion hmv
      | some ti =>
        simp only [moveTaskHandler, ht] at hmv
        have hpair := Except.ok.inj hmv
        have hb2 : ({ removeTaskFromBoard s.board task with columns := modifyAt (removeTaskFromBoard s.board task).columns ti (fun c => { c with taskIds := spliceInsert c.taskIds order task._id }) } : Board) = b2 :=
          congrArg Prod.fst hpair
        have ht2 : ({ task with column := columnId, order := order } : Task) = t2 :=
          congrArg Prod.snd hpair
        subst hb2
        subst ht2
        obtain ⟨h1, h2, h3, h4, h5⟩ := h
        have htask_mem : task ∈ s.tasks := List.mem_of_find?_eq_some hft
        have htask_id : task._id = taskId := by
          have h6 := List.find?_some hft
          simpa using h6
        have htb : ti < s.board.columns.length := findColumnIdx_some_lt ht
        have hti_id : (s.board.columns.getD ti default)._id = columnId := by
          rw [getD_eq_get _ _ htb]
          exact findColumnIdx_some_id ht htb
        have hlenR : (removeTaskFromBoard s.board task).columns.length = s.board.columns.length :=
          length_columns_removeTaskFromBoard s.board task
        have hcount2 : ∀ c ∈ s.board.columns, c.taskIds.count task._id ≤ 1 := by
          intro c hc
          rw [h5 task htask_mem c hc]
          by_cases hcc : c._id = task.column
          · rw [if_pos hcc]
          · rw [if_neg hcc]
            exact Nat.zero_le 1
        have hcntR : ∀ j, ∀ hj : j < s.board.columns.length, ∀ x : Id, x ≠ task._id →
            ((removeTaskFromBoard s.board task).columns.getD j default).taskIds.count x =
              (s.board.columns.getD j default).taskIds.count x := by
          intro j hj x hx
          rw [getD_removeTaskFromBoard s.board task j hj]
          by_cases hcond : s.board.findColumnIdx task.column = some j
          · rw [if_pos hcond, taskIds_set, count_removeById _ _ _ hx]
          · rw [if_neg hcond]
        have hcntRtask : ∀ j, ∀ hj : j < s.board.columns.length,
            ((removeTaskFromBoard s.board task).columns.getD j default).taskIds.count task._id = 0 := by
          intro j hj
          rw [getD_removeTaskFromBoard s.board task j hj]
          by_cases hcond : s.board.findColumnIdx task.column = some j
          · rw [if_pos hcond, taskIds_set, count_removeById_self]
            exact Nat.sub_eq_zero_of_le (hcount2 _ (getD_mem s.board.columns default hj))
          · rw [if_neg hcond]
            rw [h5 task htask_mem _ (getD_mem s.board.columns default hj)]
            rw [if_neg (getD_id_ne_of_findColumnIdx_ne s.board task.column j hj h1 hcond)]
        have hidR : ∀ j, ∀ hj : j < s.board.columns.length,
            ((removeTaskFromBoard s.board task).columns.getD j default)._id =
              (s.board.columns.getD j default)._id := by
          intro j hj
          rw [getD_removeTaskFromBoard s.board task j hj]
          by_cases hcond : s.board.findColumnIdx task.column = some j
          · rw [if_pos hcond, id_set_taskIds]
          · rw [if_neg hcond]
        have hsub : ∀ j, ∀ hj : j < s.board.columns.length,
            ∀ i ∈ ((removeTaskFromBoard s.board task).columns.getD j default).taskIds,
              i ∈ (s.board.columns.getD j default).taskIds := by
          intro j hj i hi
          rw [getD_removeTaskFromBoard s.board task j hj] at hi
          by_cases hcond : s.board.findColumnIdx task.column = some j
          · rw [if_pos hcond, taskIds_set, removeById_eq_erase] at hi
            exact List.mem_of_mem_erase hi
          · rw [if_neg hcond] at hi
            exact hi
        refine ⟨?_, ?_, ?_, ?_, ?_⟩
        · show (colIds ({ removeTaskFromBoard s.board task with columns := modifyAt (removeTaskFromBoard s.board task).columns ti (fun c => { c with taskIds := spliceInsert c.taskIds order task._id }) } : Board)).Nodup
          rw [colIds_modify_taskIds (removeTaskFromBoard s.board task) ti (fun l => spliceInsert l order task._id),
            colIds_removeTaskFromBoard]
          exact h1
        · show ((s.tasks.map (fun t1 => if t1._id == taskId then ({ task with column := columnId, order := order } : Task) else t1)).map (·._id)).Nodup
          rw [List.map_map]
          have hcongr : s.tasks.map ((·._id) ∘ (fun t1 => if t1._id == taskId then ({ task with column := columnId, order := order } : Task) else t1)) = s.tasks.map (·._id) := by
            apply List.map_congr_left
            intro t1 ht1
            show (if t1._id == taskId then ({ task with column := columnId, order := order } : Task) else t1)._id = t1._id
            by_cases he : (t1._id == taskId) = true
            · rw [if_pos he]
              show task._id = t1._id
              rw [htask_id]
              exact (beq_iff_eq.1 he).symm
            · rw [if_neg he]
          rw [hcongr]
          exact h2
        · intro t0 ht0
          obtain ⟨t1, ht1, rfl⟩ := List.mem_map.1 ht0
          show (if t1._id == taskId then ({ task with column := columnId, order := order } : Task) else t1)._id < s.nextId
          by_cases he : (t1._id == taskId) = true
          · rw [if_pos he]
            exact h3 task htask_mem
          · rw [if_neg he]
            exact h3 t1 ht1
        · show ∀ c ∈ modifyAt (removeTaskFromBoard s.board task).columns ti (fun c => { c with taskIds := spliceInsert c.taskIds order task._id }), ∀ i ∈ c.taskIds, i < s.nextId
          refine (forall_mem_iff_getD _ default).2 ?_
          intro j hj
          rw [length_modifyAt, hlenR] at hj
          have hjR : j < (removeTaskFromBoard s.board task).columns.length := by
            rw [hlenR]
            exact hj
          rcases eq_or_ne j ti with rfl | hne
          · rw [getD_modifyAt_self _ _ _ _ hjR]
            show ∀ i ∈ spliceInsert (((removeTaskFromBoard s.board task).columns.getD j default).taskIds) order task._id, i < s.nextId
            intro i hi
            rcases mem_spliceInsert.1 hi with rfl | hi2
            · exact h3 task htask_mem
            · exact h4 _ (getD_mem s.board.columns default hj) i (hsub j hj i hi2)
          · rw [getD_modifyAt_ne _ _ _ _ _ hjR hne]
            intro i hi
            exact h4 _ (getD_mem s.board.columns default hj) i (hsub j hj i hi)
        · show ∀ t0 ∈ s.tasks.map (fun t1 => if t1._id == taskId then ({ task with column := columnId, order := order } : Task) else t1), ∀ c ∈ modifyAt (removeTaskFromBoard s.board task).columns ti (fun c => { c with taskIds := spliceInsert c.taskIds order task._id }), c.taskIds.count t0._id = if c._id = t0.column then 1 else 0
          intro t0 ht0
          obtain ⟨t1, ht1, rfl⟩ := List.mem_map.1 ht0
          refine (forall_mem_iff_getD _ default).2 ?_
          intro j hj
          rw [length_modifyAt, hlenR] at hj
          have hjR : j < (removeTaskFromBoard s.board task).columns.length := by
            rw [hlenR]
            exact hj
          by_cases he : (t1._id == taskId) = true
          · have ht1task : t1 = task := by
              apply List.inj_on_of_nodup_map h2 ht1 htask_mem
              rw [htask_id]
              exact beq_iff_eq.1 he
            subst ht1task
            rw [if_pos he]
            rcases eq_or_ne j ti with rfl | hne
            · rw [getD_modifyAt_self _ _ _ _ hjR]
              show (spliceInsert (((removeTaskFromBoard s.board t1).columns.getD j default).taskIds) order t1._id).count t1._id = if ((removeTaskFromBoard s.board t1).columns.getD j default)._id = columnId then 1 else 0
              rw [hidR j hj, hti_id, if_pos rfl, count_spliceInsert, if_pos rfl, hcntRtask j hj]
            · rw [getD_modifyAt_ne _ _ _ _ _ hjR hne]
              show (((removeTaskFromBoard s.board t1).columns.getD j default)).taskIds.count t1._id = if ((removeTaskFromBoard s.board t1).columns.getD j default)._id = columnId then 1 else 0
              have hne2 : (s.board.columns.getD j default)._id ≠ columnId := by
                apply getD_id_ne_of_findColumnIdx_ne s.board columnId j hj h1
                rw [ht]
                intro hcon
                exact hne (Option.some.inj hcon).symm
              rw [hidR j hj, hcntRtask j hj, if_neg hne2]
          · rw [if_neg he]
            have hne1 : t1._id ≠ task._id := by
              rw [htask_id]
              intro hcon
              exact he (beq_iff_eq.2 hcon)
            rcases eq_or_ne j ti with rfl | hne
            · rw [getD_modifyAt_self _ _ _ _ hjR]
              show (spliceInsert (((removeTaskFromBoard s.board task).columns.getD j default).taskIds) order task._id).count t1._id = if ((removeTaskFromBoard s.board task).columns.getD j default)._id = t1.column then 1 else 0
              rw [hidR j hj, count_spliceInsert, if_neg hne1, Nat.add_zero, hcntR j hj _ hne1]
              exact h5 t1 ht1 _ (getD_mem s.board.columns default hj)
            · rw [getD_modifyAt_ne _ _ _ _ _ hjR hne]
              show (((removeTaskFromBoard s.board task).columns.getD j default)).taskIds.count t1._id = if ((removeTaskFromBoard s.board task).columns.getD j default)._id = t1.column then 1 else 0
              rw [hidR j hj, hcntR j hj _ hne1]
              exact h5 t1 ht1 _ (getD_mem s.board.columns default hj)

theorem stepT_del_WFT (s : TState) (taskId : Id) (h : WFT s) :
    WFT (stepT s (TOp.del taskId)) := by
  cases hft : s.tasks.find? (·._id == taskId) with
  | none =>
    simp only [stepT, hft]
    exact h
  | some task =>
    simp only [stepT, hft]
    obtain ⟨h1, h2, h3, h4, h5⟩ := h
    have htask_mem : task ∈ s.tasks := List.mem_of_find?_eq_some hft
    have htask_id : task._id = taskId := by
      have h6 := List.find?_some hft
      simpa using h6
    have hlenR : (removeTaskFromBoard s.board task).columns.length = s.board.columns.length :=
      length_columns_removeTaskFromBoard s.board task
    have hcntR : ∀ j, ∀ hj : j < s.board.columns.length, ∀ x : Id, x ≠ task._id →
        ((removeTaskFromBoard s.board task).columns.getD j default).taskIds.count x =
          (s.board.columns.getD j default).taskIds.count x := by
      intro j hj x hx
      rw [getD_removeTaskFromBoard s.board task j hj]
      by_cases hcond : s.board.findColumnIdx task.column = some j
      · rw [if_pos hcond, taskIds_set, count_removeById _ _ _ hx]
      · rw [if_neg hcond]
    have hidR : ∀ j, ∀ hj : j < s.board.columns.length,
        ((removeTaskFromBoard s.board task).columns.getD j default)._id =
          (s.board.columns.getD j default)._id := by
      intro j hj
      rw [getD_removeTaskFromBoard s.board task j hj]
      by_cases hcond : s.board.findColumnIdx task.column = some j
      · rw [if_pos hcond, id_set_taskIds]
      · rw [if_neg hcond]
    have hsub : ∀ j, ∀ hj : j < s.board.columns.length,
        ∀ i ∈ ((removeTaskFromBoard s.board task).columns.getD j default).taskIds,
          i ∈ (s.board.columns.getD j default).taskIds := by
      intro j hj i hi
      rw [getD_removeTaskFromBoard s.board task j hj] at hi
      by_cases hcond : s.board.findColumnIdx task.column = some j
      · rw [if_pos hcond, taskIds_set, removeById_eq_erase] at hi
        exact List.mem_of_mem_erase hi
      · rw [if_neg hcond] at hi
        exact hi
    have hne0 : ∀ t0 ∈ eraseById s.tasks (·._id) taskId, t0._id ≠ task._id := by
      intro t0 ht0 hcon
      have ht0m := mem_of_mem_eraseById ht0
      have heq0 : t0 = task := List.inj_on_of_nodup_map h2 ht0m htask_mem hcon
      subst heq0
      have hcnt : ((eraseById s.tasks (·._id) taskId).map (·._id)).count taskId =
          ((s.tasks.map (·._id)).count taskId) - 1 := by
        rw [map_eraseById, count_removeById_self]
      have hle1 : (s.tasks.map (·._id)).count taskId ≤ 1 :=
        List.nodup_iff_count_le_one.1 h2 taskId
      have hmm : t0._id ∈ (eraseById s.tasks (·._id) taskId).map (·._id) :=
        List.mem_map_of_mem _ ht0
      have hpos := List.count_pos_iff.2 hmm
      rw [htask_id] at hpos
      rw [hcnt] at hpos
      omega
    refine ⟨?_, ?_, ?_, ?_, ?_⟩
    · show (colIds (removeTaskFromBoard s.board task)).Nodup
      rw [colIds_removeTaskFromBoard]
      exact h1
    · show ((eraseById s.tasks (·._id) taskId).map (·._id)).Nodup
      rw [map_eraseById, removeById_eq_erase]
      exact List.Nodup.sublist (List.erase_sublist _ _) h2
    · intro t0 ht0
      exact h3 t0 (mem_of_mem_eraseById ht0)
    · show ∀ c ∈ (removeTaskFromBoard s.board task).columns, ∀ i ∈ c.taskIds, i < s.nextId
      refine (forall_mem_iff_getD _ default).2 ?_
      intro j hj
      rw [hlenR] at hj
      intro i hi
      exact h4 _ (getD_mem s.board.columns default hj) i (hsub j hj i hi)
    · show ∀ t0 ∈ eraseById s.tasks (·._id) taskId, ∀ c ∈ (removeTaskFromBoard s.board task).columns, c.taskIds.count t0._id = if c._id = t0.column then 1 else 0
      intro t0 ht0
      have ht0m := mem_of_mem_eraseById ht0
      have hne1 := hne0 t0 ht0
      refine (forall_mem_iff_getD _ default).2 ?_
      intro j hj
      rw [hlenR] at hj
      rw [hidR j hj, hcntR j hj _ hne1]
      exact h5 t0 ht0m _ (getD_mem s.board.columns default hj)

theorem stepT_WFT (s : TState) (op : TOp) (h : WFT s) : WFT (stepT s op) := by
  cases op with
  | create columnId title => exact stepT_create_WFT s columnId title h
  | move taskId columnId order => exact stepT_move_WFT s taskId columnId order h
  | del taskId => exact stepT_del_WFT s taskId h

def exBoardC3 : Board :=
  { _id := 50, title := "b", description := "", project := 1,
    columns := [⟨0, "c0", 0, []⟩, ⟨1, "c1", 1, []⟩], columnOrder := [0, 1] }

def exTS0C3 : TState := { board := exBoardC3, tasks := [], nextId := 100 }

def exOpsC3 : List TOp := [TOp.create 0 "t1", TOp.create 0 "t2", TOp.move 100 1 0]

/-- C3 counterexample: create two tasks in column 0, then move the first
to column 1; the remaining task sits at index 0 of column 0 but its
denormalized `order` field still reads 1 — the order part of the claimed
invariant fails. -/
theorem task_order_field_drifts :
    ∃ t ∈ (exOpsC3.foldl stepT exTS0C3).tasks,
      ∃ c ∈ (exOpsC3.foldl stepT exTS0C3).board.columns,
        t._id ∈ c.taskIds ∧ c._id = t.column ∧
        t.order ≠ (c.taskIds.indexOf t._id : Int) := by decide

/-- C3 (amended): after any sequence of succeeding createTask, moveTask
and deleteTask operations from a well-formed state, every task's
denormalized `column` field still equals the id of the column whose
`taskIds` contains the task's id (membership holds exactly for that
column); the `order` field, however, is not kept equal to the task's
index in that list — it only records the value assigned by the task's
last create or move. -/
theorem tasks_column_field_consistent (s0 : TState) (ops : List TOp)
    (h0 : WFT s0) :
    ∀ t ∈ (ops.foldl stepT s0).tasks, ∀ c ∈ (ops.foldl stepT s0).board.columns,
      (t._id ∈ c.taskIds ↔ c._id = t.column) := by
  have hW : WFT (ops.foldl stepT s0) := by
    induction ops generalizing s0 with
    | nil => exact h0
    | cons op rest ih =>
      rw [List.foldl_cons]
      exact ih (stepT s0 op) (stepT_WFT s0 op h0)
  obtain ⟨-, -, -, -, h5⟩ := hW
  intro t htm c hcm
  have hcnt := h5 t htm c hcm
  constructor
  · intro hmem
    by_contra hne
    rw [if_neg hne] at hcnt
    have hpos := List.count_pos_iff.2 hmem
    rw [hcnt] at hpos
    exact absurd hpos (lt_irrefl 0)
  · intro he
    rw [if_pos he] at hcnt
    have hpos : 0 < c.taskIds.count t._id := by
      rw [hcnt]
      exact Nat.zero_lt_one
    exact List.count_pos_iff.1 hpos

/-- C3 witness: in the state reached by the counterexample run, task 101
is in column 0, and membership matches its column field. -/
theorem tasks_column_field_consistent_witness :
    (101 : Id) ∈ ([101] : List Id) ↔ (0 : Id) = (0 : Id) :=
  tasks_column_field_consistent exTS0C3 exOpsC3 (by decide)
    ⟨101, "t2", 50, 0, 1⟩ (by decide) ⟨0, "c0", 0, [101]⟩ (by decide)

end TaskMgmt
